import Mathlib

/-!
# PigYacc tokenizer: a Lean model of `pigyacc.go`

The Go program is a stack-of-contexts lexer.  The model below follows the
source function by function.

* Go strings are modelled by `String` (sequences of runes); the reader
  `yacc.source` is the list of runes not yet read and is threaded explicitly.
* `yacc.states` is modelled by a list whose HEAD is the top of the stack
  (the Go slice grows at its end; the list is that slice reversed).
* The channel `yacc.tokens` is modelled by the list of tokens sent so far.
* The package-level registries `tokens` and `states` are the fields
  `userTokens` and `userStates` of the configuration.
* A run-time panic (failed type assertion, index or slice out of range) and
  the errors returned by handlers are values of `Stop`; a failing operation
  returns the configuration at the moment of the failure.
-/

namespace PigYacc

/-! ## Constants -/

/-- The state tags of the first `const` block (`STATE_INIT = iota` ...). -/
inductive StateTag
  | STATE_INIT
  | STATE_FINISHED
  | STATE_ERROR
  | STATE_STACK
  | STATE_SLASH
  | STATE_STAR
  | STATE_LINECOMMENT
  | STATE_CCOMMENT
  | STATE_PERCENT
  | STATE_LEXRULES
  | STATE_YACCRULES
  | STATE_ACTION
  | STATE_ACTIONBLOCK
  | STATE_ACTIONEND
  deriving DecidableEq, Repr

open StateTag

/-- The constant `USER_STATE`: the value of `iota` after the fourteen state tags. -/
def USER_STATE : Nat := 14

def TOKEN_DOUBLESLASH : Nat := 256
def TOKEN_SLASHSTAR : Nat := 257
def TOKEN_STARSLASH : Nat := 258
def TOKEN_PERCENT : Nat := 259
def TOKEN_COMMENTLINE : Nat := 260
def TOKEN_INSTRUCTION : Nat := 261
def TOKEN_EOF : Nat := 262
def TOKEN_REGEXP : Nat := 263
def TOKEN_BLOCKSTART : Nat := 264
def TOKEN_ACTIONBLOCK : Nat := 265
def TOKEN_ACTION : Nat := 266
def TOKEN_BLOCKEND : Nat := 267
def TOKEN_RETURN : Nat := 268
def TOKEN_STATE : Nat := 269
def TOKEN_TOKEN : Nat := 270
def TOKEN_LEN : Nat := 271
def TOKEN_VALUE : Nat := 272
def TOKEN_ERROR : Nat := 273
def USER_TOKEN : Nat := 274

/-- The map `keywords`, as an association list (its keys are distinct, so the
iteration order of the Go map does not matter). -/
def keywords : List (String × Nat) :=
  [("return", TOKEN_RETURN), ("state", TOKEN_STATE), ("token", TOKEN_TOKEN),
   ("len", TOKEN_LEN), ("value", TOKEN_VALUE), ("error", TOKEN_ERROR)]

/-! ## Data model -/

/-- The dynamic type of `Token.value` (an `interface{}`): a string almost
everywhere, a rune in the frame pushed by `checkComments` for `/`. -/
inductive Value
  | str (s : String)
  | rune (c : Char)
  deriving DecidableEq, Repr

structure Token where
  id : Nat
  char : Char
  value : Value
  deriving DecidableEq, Repr

structure State where
  current : StateTag
  token : Token
  deriving DecidableEq, Repr

/-- The configuration: the struct `Yacc` without its reader, together with the
two package-level registries. -/
structure Yacc where
  states : List State
  tokens : List Token
  position : Int
  userTokens : List String
  userStates : List String
  deriving DecidableEq, Repr

/-- Why a call stops without a result. -/
inductive Stop
  | EOF
  | error (msg : String)
  | panic
  | finished
  | outOfFuel
  deriving DecidableEq, Repr

/-- Result of a fallible operation; a failure carries the configuration reached. -/
abbrev Res (α : Type) := Except (Stop × Yacc) α

/-- The rune `0`. -/
def nul : Char := Char.ofNat 0

/-- The token literal `&Token{id: 0, char: 0, value: ""}`. -/
def emptyToken : Token := ⟨0, nul, .str ""⟩

/-- The configuration built in `main`, with the initial registries. -/
def initial : Yacc :=
  { states := [⟨STATE_INIT, emptyToken⟩], tokens := [], position := 0,
    userTokens := [], userStates := ["_INIT"] }

/-! ## Stack and sink primitives -/

/-- The send `yacc.tokens <- token`. -/
def send (t : Token) (y : Yacc) : Yacc := { y with tokens := y.tokens ++ [t] }

def getState (y : Yacc) : Res State :=
  match y.states with
  | [] => .error (.panic, y)
  | s :: _ => .ok s

def pushState (state : State) (y : Yacc) : Yacc := { y with states := state :: y.states }

def popState (y : Yacc) : Res Yacc :=
  match y.states with
  | [] => .error (.panic, y)
  | _ :: rest => .ok { y with states := rest }

def replaceState (state : State) (y : Yacc) : Res Yacc :=
  match popState y with
  | .error e => .error e
  | .ok y1 => .ok (pushState state y1)

def getToken (y : Yacc) : Res Token :=
  match getState y with
  | .error e => .error e
  | .ok s => .ok s.token

def replaceToken (token : Token) (y : Yacc) : Res Yacc :=
  match y.states with
  | [] => .error (.panic, y)
  | s :: rest => .ok { y with states := { s with token := token } :: rest }

def finished (y : Yacc) : Res Bool :=
  match getState y with
  | .error e => .error e
  | .ok s => .ok (decide (s.current = STATE_FINISHED))

/-- The expression `yacc.getToken().value.(string)`. -/
def getTokenString (y : Yacc) : Res String :=
  match getToken y with
  | .error e => .error e
  | .ok t =>
    match t.value with
    | .str s => .ok s
    | .rune _ => .error (.panic, y)

/-- The effect of a successful `getNext` on the column counter. -/
def advance (c : Char) (y : Yacc) : Yacc :=
  if c ≠ '\n' then { y with position := y.position + 1 } else y

/-- The cursor `getNext`: on end of input it sends the end-of-input token
(payload `err.Error()`, the text `EOF`) and fails. -/
def getNext (src : List Char) (y : Yacc) : Res (Char × List Char × Yacc) :=
  match src with
  | [] => .error (.EOF, send ⟨TOKEN_EOF, nul, .str "EOF"⟩ y)
  | c :: rest => .ok (c, rest, advance c y)

/-- The test `strings.IndexRune(BLANKSPACES, c) >= 0`. -/
def isBlank (c : Char) : Bool := c = ' ' || c = '\t'

/-! ## Classifier -/

/-- The generic search loops of `checkKeyword`: first key equal to `value`. -/
def lookupKeyword (value : String) : List (String × Nat) → Option Nat
  | [] => none
  | (keyword, tokenId) :: rest => if keyword = value then some tokenId else lookupKeyword value rest

def checkKeyword (y : Yacc) : Res Yacc :=
  match getTokenString y with
  | .error e => .error e
  | .ok value =>
    let y1 :=
      if value.length > 0 then
        match lookupKeyword value keywords with
        | some tokenId => send ⟨tokenId, nul, .str value⟩ y
        | none =>
          if value ∈ y.userTokens then send ⟨USER_TOKEN, nul, .str value⟩ y
          else if value ∈ y.userStates then send ⟨USER_STATE, nul, .str value⟩ y
          else send ⟨TOKEN_ERROR, nul, .str ("ERR: " ++ value)⟩ y
      else y
    replaceToken emptyToken y1

/-! ## Library string functions used by `checkCommand` -/

/-- The predicate `unicode.IsSpace`. -/
def isSpace (c : Char) : Bool :=
  c = '\t' || c = '\n' || c = Char.ofNat 0x0B || c = Char.ofNat 0x0C || c = '\r' || c = ' '
    || c = Char.ofNat 0x85 || c = Char.ofNat 0xA0 || c = Char.ofNat 0x1680
    || (0x2000 ≤ c.toNat && c.toNat ≤ 0x200A)
    || c = Char.ofNat 0x2028 || c = Char.ofNat 0x2029 || c = Char.ofNat 0x202F
    || c = Char.ofNat 0x205F || c = Char.ofNat 0x3000

/-- Pieces of a rune sequence between separators (`n` separators give `n+1`
pieces, possibly empty). -/
def splitBy (p : Char → Bool) : List Char → List (List Char)
  | [] => [[]]
  | c :: cs =>
    if p c then [] :: splitBy p cs
    else
      match splitBy p cs with
      | [] => [[c]]
      | w :: ws => (c :: w) :: ws

/-- The function `strings.Fields`: the maximal runs of non-space runes. -/
def Fields (s : String) : List String :=
  ((splitBy isSpace s.data).filter (fun w => !w.isEmpty)).map String.mk

/-- The call `strings.Split(s, ",")`. -/
def Split (s : String) : List String := (splitBy (fun c => c = ',') s.data).map String.mk

/-- The call `strings.Join(xs, sep)`. -/
def Join (sep : String) : List String → String
  | [] => ""
  | [x] => x
  | x :: y :: rest => x ++ sep ++ Join sep (y :: rest)

/-- The call `strings.Replace(s, " ", "", -1)`: every blank removed. -/
def removeBlanks (s : String) : String := String.mk (s.data.filter (fun c => c ≠ ' '))

/-- The loop `for _, name := range strings.Split(list, ",") { if name != "" { append } }`. -/
def appendNames (registry : List String) (list : String) : List String :=
  registry ++ (Split list).filter (fun name => name ≠ "")

/-! ## Directive processor -/

def checkCommand (y : Yacc) : Res Yacc :=
  match getTokenString y with
  | .error e => .error e
  | .ok value =>
    let y1 := send ⟨TOKEN_INSTRUCTION, nul, .str value⟩ y
    match Fields value with
    | [] => .error (.panic, y1)
    | f0 :: rest =>
      if f0 = "yacc" then
        match popState y1 with
        | .error e => .error e
        | .ok y2 => replaceState ⟨STATE_YACCRULES, emptyToken⟩ y2
      else if f0 = "only" then popState y1
      else if f0 = "except" then popState y1
      else if f0 = "include" then popState y1
      else if f0 = "output" then popState y1
      else if f0 = "token" then
        popState { y1 with userTokens := appendNames y1.userTokens (removeBlanks (Join "," rest)) }
      else if f0 = "state" then
        popState { y1 with userStates := appendNames y1.userStates (removeBlanks (Join "," rest)) }
      else if f0 = "alias" then
        match rest with
        | _ :: _ :: _ => popState y1
        | _ => .error (.panic, y1)
      else popState y1

/-! ## Comment interceptor -/

def checkComments (c : Char) (y : Yacc) : Yacc :=
  if c = '/' then pushState ⟨STATE_SLASH, ⟨47, '/', .rune c⟩⟩ y
  else if c = '#' then pushState ⟨STATE_LINECOMMENT, ⟨35, '#', .str (String.singleton c)⟩⟩ y
  else y

/-! ## State handlers

Each handler of the source is a loop
`for yacc.getState().current == X { c, err := yacc.getNext(); ...; <body> }`.
The body of one iteration is a function of the rune just read and of the
configuration returned by `getNext`; `handlerLoop` is the loop itself. -/

/-- The accumulation `&Token{id: 0, char: c, value: value.(string) + string(c)}`
followed by `replaceToken`. -/
def accumulate (c : Char) (y : Yacc) : Res Yacc := do
  let v ← getTokenString y
  replaceToken ⟨0, c, .str (v.push c)⟩ y

def stateInitBody (c : Char) (y0 : Yacc) : Res Yacc := do
  let y := checkComments c y0
  let s ← getState y
  if s.current ≠ STATE_INIT then pure y
  else if c = '%' ∧ y.position = 0 then pure (pushState ⟨STATE_PERCENT, emptyToken⟩ y)
  else if c = '\r' then pure y
  else if c = '\n' then pure { y with position := -1 }
  else if isBlank c then pure y
  else
    let token : Token := ⟨0, c, .str (String.singleton c)⟩
    let y1 ← replaceToken token y
    pure (send token y1)

def stateSlashBody (c : Char) (y : Yacc) : Res Yacc := do
  if c = '/' then replaceState ⟨STATE_LINECOMMENT, ⟨TOKEN_DOUBLESLASH, nul, .str "//"⟩⟩ y
  else if c = '*' then replaceState ⟨STATE_CCOMMENT, ⟨TOKEN_SLASHSTAR, nul, .str "/*"⟩⟩ y
  else if isBlank c then pure y
  else
    let t ← getToken y
    let y1 := send t y
    let v ← getTokenString y1
    let token : Token := ⟨0, c, .str (v.push c)⟩
    let y2 ← popState y1
    let y3 ← replaceToken token y2
    pure (send token y3)

def stateCCommentBody (c : Char) (y : Yacc) : Res Yacc := do
  let v ← getTokenString y
  let token : Token := ⟨0, c, .str (v.push c)⟩
  if c = '*' then pure (pushState ⟨STATE_STAR, token⟩ y)
  else replaceToken token y

def stateStarBody (c : Char) (y : Yacc) : Res Yacc := do
  if c = '/' then
    let v ← getTokenString y
    let token : Token := ⟨TOKEN_STARSLASH, nul, .str (v ++ "/")⟩
    let y1 ← popState y
    let y2 ← popState y1
    pure (send token y2)
  else if c = '*' then
    let v ← getTokenString y
    replaceToken ⟨42, '*', .str (v ++ "*")⟩ y
  else
    let t ← getToken y
    let y1 := send t y
    let v ← getTokenString y1
    let token : Token := ⟨0, c, .str (v.push c)⟩
    let y2 ← popState y1
    let y3 ← replaceToken token y2
    pure (send token y3)

def stateLineCommentBody (c : Char) (y : Yacc) : Res Yacc := do
  if c = '\r' then pure y
  else if c = '\n' then
    let y1 := { y with position := -1 }
    let s ← getState y1
    let token : Token := ⟨TOKEN_COMMENTLINE, nul, s.token.value⟩
    let y2 ← popState y1
    pure (send token y2)
  else accumulate c y

def statePercentBody (c : Char) (y0 : Yacc) : Res Yacc := do
  let y := checkComments c y0
  let s ← getState y
  if s.current ≠ STATE_PERCENT then pure y
  else if c = '\r' then pure y
  else if c = '\n' then checkCommand { y with position := -1 }
  else accumulate c y

def stateyaccRulesBody (c : Char) (y0 : Yacc) : Res Yacc := do
  let y := checkComments c y0
  let s ← getState y
  if s.current ≠ STATE_YACCRULES then pure y
  else if c = '%' ∧ y.position = 0 then pure (pushState ⟨STATE_PERCENT, emptyToken⟩ y)
  else if (c = '\t' ∨ c = '\n') ∧ y.position > 0 then
    let t ← getToken y
    let y1 := send ⟨TOKEN_REGEXP, c, t.value⟩ y
    replaceState ⟨STATE_ACTION, emptyToken⟩ y1
  else if c = '\r' then pure y
  else if c = '\n' then replaceToken emptyToken { y with position := -1 }
  else accumulate c y

def stateActionBody (c : Char) (y0 : Yacc) : Res Yacc := do
  let y := checkComments c y0
  let s ← getState y
  if s.current ≠ STATE_ACTION then pure y
  else if isBlank c then checkKeyword y
  else if c = '\r' then pure y
  else if c = '{' ∧ y.position > 0 then
    let y1 := send ⟨TOKEN_BLOCKSTART, c, .str "\x7b"⟩ y
    replaceState ⟨STATE_ACTIONBLOCK, emptyToken⟩ y1
  else if c = '\n' then
    let v ← getTokenString y
    if v ≠ "" then
      let y1 ← checkKeyword { y with position := -1 }
      replaceState ⟨STATE_YACCRULES, emptyToken⟩ y1
    else replaceState ⟨STATE_YACCRULES, emptyToken⟩ { y with position := -1 }
  else accumulate c y

def stateActionBlockBody (c : Char) (y0 : Yacc) : Res Yacc := do
  let y := checkComments c y0
  let s ← getState y
  if s.current ≠ STATE_ACTIONBLOCK then pure y
  else if isBlank c ∨ c = '\n' then
    let y1 ← checkKeyword y
    if c = '\n' then pure { y1 with position := -1 } else pure y1
  else if c = '\r' then pure y
  else if c = '}' then
    let v ← getTokenString y
    let y1 := send ⟨TOKEN_BLOCKEND, c, .str (v ++ "\x7d")⟩ y
    replaceState ⟨STATE_ACTIONEND, emptyToken⟩ y1
  else accumulate c y

def stateActionEndBody (c : Char) (y0 : Yacc) : Res Yacc := do
  let y := checkComments c y0
  let s ← getState y
  if s.current ≠ STATE_ACTIONEND then pure y
  else if isBlank c then pure y
  else if c = '\r' then pure y
  else if c = '\n' then replaceState ⟨STATE_YACCRULES, emptyToken⟩ y
  else pure y

def stateError (y : Yacc) : Res Yacc :=
  match getTokenString y with
  | .error e => .error e
  | .ok msg => .error (.error msg, y)

/-- The loop `for yacc.getState().current == tag { c, err := yacc.getNext();
if err != nil { return err }; body }`, returning the runes left unread. -/
def handlerLoop (tag : StateTag) (body : Char → Yacc → Res Yacc) :
    List Char → Yacc → Res (List Char × Yacc)
  | [], y =>
    match getState y with
    | .error e => .error e
    | .ok s =>
      if s.current = tag then
        match getNext [] y with
        | .error e => .error e
        | .ok (_, rest, y1) => .ok (rest, y1)
      else .ok ([], y)
  | c :: rest, y =>
    match getState y with
    | .error e => .error e
    | .ok s =>
      if s.current = tag then
        match body c (advance c y) with
        | .error e => .error e
        | .ok y1 => handlerLoop tag body rest y1
      else .ok (c :: rest, y)

def stateInit := handlerLoop STATE_INIT stateInitBody
def stateSlash := handlerLoop STATE_SLASH stateSlashBody
def stateCComment := handlerLoop STATE_CCOMMENT stateCCommentBody
def stateStar := handlerLoop STATE_STAR stateStarBody
def stateLineComment := handlerLoop STATE_LINECOMMENT stateLineCommentBody
def statePercent := handlerLoop STATE_PERCENT statePercentBody
def stateyaccRules := handlerLoop STATE_YACCRULES stateyaccRulesBody
def stateAction := handlerLoop STATE_ACTION stateActionBody
def stateActionBlock := handlerLoop STATE_ACTIONBLOCK stateActionBlockBody
def stateActionEnd := handlerLoop STATE_ACTIONEND stateActionEndBody

/-- The dispatcher `nextState`.  The cases `STATE_FINISHED` and `STATE_STACK`
have empty bodies and return `nil`; `STATE_LEXRULES` falls in `default`. -/
def nextState (src : List Char) (y : Yacc) : Res (List Char × Yacc) :=
  match getState y with
  | .error e => .error e
  | .ok s =>
    match s.current with
    | STATE_INIT => stateInit src y
    | STATE_FINISHED => .ok (src, y)
    | STATE_STACK => .ok (src, y)
    | STATE_ERROR =>
      match stateError y with
      | .error e => .error e
      | .ok y1 => .ok (src, y1)
    | STATE_SLASH => stateSlash src y
    | STATE_CCOMMENT => stateCComment src y
    | STATE_STAR => stateStar src y
    | STATE_LINECOMMENT => stateLineComment src y
    | STATE_PERCENT => statePercent src y
    | STATE_YACCRULES => stateyaccRules src y
    | STATE_ACTION => stateAction src y
    | STATE_ACTIONBLOCK => stateActionBlock src y
    | STATE_ACTIONEND => stateActionEnd src y
    | STATE_LEXRULES =>
      match stateError y with
      | .error e => .error e
      | .ok y1 => .ok (src, y1)

/-- The driver loop of `main`: `for !yacc.finished() { if err := yacc.nextState(); err != nil
{ ...; break } }`, bounded by a number of iterations.  It returns why the loop
stopped and the final configuration. -/
def mainLoop : Nat → List Char → Yacc → Stop × Yacc
  | 0, _, y => (.outOfFuel, y)
  | fuel + 1, src, y =>
    match finished y with
    | .error e => e
    | .ok true => (.finished, y)
    | .ok false =>
      match nextState src y with
      | .error e => e
      | .ok (src1, y1) => mainLoop fuel src1 y1

/-- The program run on an input: `main` from the initial configuration.  One
iteration per rune plus one is enough fuel (see `mainLoop_eq_run`). -/
def main (input : List Char) : Stop × Yacc := mainLoop (input.length + 1) input initial

/-! ## Rune-by-rune view of the driver

Every handler iteration reads one rune, and the driver re-dispatches on the
active tag, so a run is also a fold of single iterations over the input.
`mainLoop_eq_run` below proves that the driver loop computes exactly `run`. -/

/-- One loop iteration of the handler that `nextState` selects for the active
frame, on the rune `c` (the cursor has delivered `c`).  No rune is read when the
active tag is `STATE_FINISHED` (the driver loop ends), `STATE_STACK` (`nextState`
returns `nil` without reading, so the driver loop never ends: `outOfFuel`) or a tag
handled by `stateError`. -/
def nextChar (c : Char) (y : Yacc) : Res Yacc :=
  match getState y with
  | .error e => .error e
  | .ok s =>
    match s.current with
    | STATE_INIT => stateInitBody c (advance c y)
    | STATE_FINISHED => .error (.finished, y)
    | STATE_STACK => .error (.outOfFuel, y)
    | STATE_ERROR => stateError y
    | STATE_SLASH => stateSlashBody c (advance c y)
    | STATE_CCOMMENT => stateCCommentBody c (advance c y)
    | STATE_STAR => stateStarBody c (advance c y)
    | STATE_LINECOMMENT => stateLineCommentBody c (advance c y)
    | STATE_PERCENT => statePercentBody c (advance c y)
    | STATE_YACCRULES => stateyaccRulesBody c (advance c y)
    | STATE_ACTION => stateActionBody c (advance c y)
    | STATE_ACTIONBLOCK => stateActionBlockBody c (advance c y)
    | STATE_ACTIONEND => stateActionEndBody c (advance c y)
    | STATE_LEXRULES => stateError y

/-- The configuration after the driver has consumed the runes `src`. -/
def consume : List Char → Yacc → Res Yacc
  | [], y => .ok y
  | c :: rest, y =>
    match nextChar c y with
    | .error e => .error e
    | .ok y1 => consume rest y1

/-- What the driver does once the reader is exhausted. -/
def atEnd (y : Yacc) : Stop × Yacc := mainLoop 1 [] y

/-- The whole run, rune by rune. -/
def run (src : List Char) (y : Yacc) : Stop × Yacc :=
  match consume src y with
  | .error e => e
  | .ok y1 => atEnd y1

/-- Following the spec's words for the `token` and `state` directives: the
non-empty names obtained by splitting the remaining fields on commas and
whitespace, in order of appearance, duplicates kept. -/
def specNames (remaining : List String) : List String :=
  remaining.flatMap (fun f =>
    ((splitBy (fun c => c = ',' || isSpace c) f.data).filter (fun w => !w.isEmpty)).map String.mk)

/-! ## Auxiliary definitions for the statements -/

/-- The tags whose handler reads the cursor. -/
def isHandlerTag : StateTag → Bool
  | STATE_FINISHED | STATE_STACK | STATE_ERROR | STATE_LEXRULES => false
  | _ => true

/-- The loop body selected for a tag. -/
def bodyOf : StateTag → Char → Yacc → Res Yacc
  | STATE_INIT => stateInitBody
  | STATE_SLASH => stateSlashBody
  | STATE_CCOMMENT => stateCCommentBody
  | STATE_STAR => stateStarBody
  | STATE_LINECOMMENT => stateLineCommentBody
  | STATE_PERCENT => statePercentBody
  | STATE_YACCRULES => stateyaccRulesBody
  | STATE_ACTION => stateActionBody
  | STATE_ACTIONBLOCK => stateActionBlockBody
  | STATE_ACTIONEND => stateActionEndBody
  | _ => fun _ y => stateError y

/-- The states whose handler calls `checkComments`. -/
def runsInterceptor : StateTag → Bool
  | STATE_INIT | STATE_PERCENT | STATE_YACCRULES | STATE_ACTION | STATE_ACTIONBLOCK
  | STATE_ACTIONEND => true
  | _ => false

/-- Number of runes of a text that advance the column counter (all but LF). -/
def columns (t : List Char) : Int := ((t.filter (fun c => c ≠ '\n')).length : Int)

/-- The runes for which the Preamble state sends a raw token. -/
def sendsRaw (c : Char) : Bool := !(c = ' ' || c = '\t' || c = '\r' || c = '\n')

/-- A frame token that holds a string and is not the end-of-input token. -/
def okToken (t : Token) : Bool :=
  decide (t.id ≠ TOKEN_EOF) &&
    match t.value with
    | .str _ => true
    | .rune _ => false

/-- The tags of the frames that read the text of a line. -/
def isBase : StateTag → Bool
  | STATE_INIT | STATE_YACCRULES | STATE_ACTION | STATE_ACTIONBLOCK | STATE_ACTIONEND => true
  | _ => false

/-- A stack without comment frames: one line frame, or a Directive frame on
top of a Preamble or GrammarRules frame. -/
def lineStack : List State → Bool
  | [b] => isBase b.current && okToken b.token
  | [p, b] =>
    decide (p.current = STATE_PERCENT) && okToken p.token
      && (decide (b.current = STATE_INIT) || decide (b.current = STATE_YACCRULES))
      && okToken b.token
  | _ => false

/-- The shapes of the context stack that the engine can reach: a line stack,
possibly under one comment frame or under a block comment and its star frame. -/
def goodStack : List State → Bool
  | [] => false
  | s :: r =>
    match s.current with
    | STATE_SLASH =>
      decide (s.token.id ≠ TOKEN_EOF)
        && (match s.token.value with
            | .rune _ => true
            | .str _ => false)
        && lineStack r
    | STATE_LINECOMMENT => okToken s.token && lineStack r
    | STATE_CCOMMENT => okToken s.token && lineStack r
    | STATE_STAR =>
      okToken s.token &&
        match r with
        | c :: r1 => decide (c.current = STATE_CCOMMENT) && okToken c.token && lineStack r1
        | [] => false
    | _ => lineStack (s :: r)

/-- No token of the list is an end-of-input token. -/
def noEOF (l : List Token) : Prop := ∀ t ∈ l, t.id ≠ TOKEN_EOF

/-- The invariant of the engine. -/
def Inv (y : Yacc) : Prop := goodStack y.states = true ∧ noEOF y.tokens

/-- A step keeps the invariant, or fails with a panic. -/
def stepOK (r : Res Yacc) : Prop :=
  match r with
  | .ok y1 => Inv y1
  | .error (e, _) => e = .panic

/-- The tokens sent by `checkKeyword` for the lexeme `w`. -/
def classified (w : String) (ut us : List String) : List Token :=
  if w.length > 0 then
    match lookupKeyword w keywords with
    | some tokenId => [⟨tokenId, nul, .str w⟩]
    | none =>
      if w ∈ ut then [⟨USER_TOKEN, nul, .str w⟩]
      else if w ∈ us then [⟨USER_STATE, nul, .str w⟩]
      else [⟨TOKEN_ERROR, nul, .str ("ERR: " ++ w)⟩]
  else []

/-- No frame of the stack is tagged Preamble. -/
def noInit (l : List State) : Bool := l.all (fun s => decide (s.current ≠ STATE_INIT))

/-- A step leads to a stack without Preamble frame, or fails. -/
def stepNoInit (r : Res Yacc) : Prop :=
  match r with
  | .ok y1 => noInit y1.states = true
  | .error _ => True

/-! ## Basic lemmas -/

theorem length_pos_iff_ne_empty (w : String) : w.length > 0 ↔ w ≠ "" := by
  cases w with
  | mk l =>
    cases l with
    | nil => simp [String.length]
    | cons a l =>
      simp only [String.length, List.length_cons, gt_iff_lt, Nat.zero_lt_succ, ne_eq, true_iff]
      intro h
      have := congrArg String.data h
      simp at this

theorem lookupKeyword_some_iff (w : String) (k : Nat) :
    lookupKeyword w keywords = some k ↔ (w, k) ∈ keywords := by
  simp only [keywords, lookupKeyword]
  constructor
  · intro h
    split_ifs at h with h1 h2 h3 h4 h5 h6 <;> simp_all
  · intro h
    simp at h
    rcases h with ⟨rfl, rfl⟩ | ⟨rfl, rfl⟩ | ⟨rfl, rfl⟩ | ⟨rfl, rfl⟩ | ⟨rfl, rfl⟩ | ⟨rfl, rfl⟩ <;> decide

theorem lookupKeyword_none_iff (w : String) :
    lookupKeyword w keywords = none ↔ ∀ k, (w, k) ∉ keywords := by
  constructor
  · intro h k hk
    rw [← lookupKeyword_some_iff] at hk
    rw [h] at hk; cases hk
  · intro h
    cases hl : lookupKeyword w keywords with
    | none => rfl
    | some k => exact absurd ((lookupKeyword_some_iff w k).1 hl) (h k)

/-- C1. The classifier `checkKeyword` on an active frame with pending lexeme `w`
succeeds.  For a non-empty `w` it sends exactly one token: payload `w` with the
keyword's category if `w` is a reserved word; otherwise payload `w` with the
declared-token category if `w` is a declared token; otherwise payload `w` with the
declared-state category if `w` is a declared state; otherwise an error-category
token with payload `ERR: ` followed by `w`.  For the empty lexeme it sends nothing.
In every case the frame keeps its tag and the frames below it, its lexeme is
empty afterwards, and the registries are unchanged. -/
theorem checkKeyword_classifies (y : Yacc) (cur : StateTag) (id : Nat) (ch : Char) (w : String)
    (rest : List State) (hst : y.states = ⟨cur, ⟨id, ch, .str w⟩⟩ :: rest) :
    ∃ y1, checkKeyword y = .ok y1
      ∧ y1.states = ⟨cur, emptyToken⟩ :: rest
      ∧ y1.userTokens = y.userTokens ∧ y1.userStates = y.userStates
      ∧ (w = "" → y1.tokens = y.tokens)
      ∧ (w ≠ "" → ∀ k, (w, k) ∈ keywords → y1.tokens = y.tokens ++ [⟨k, nul, .str w⟩])
      ∧ (w ≠ "" → (∀ k, (w, k) ∉ keywords) → w ∈ y.userTokens →
          y1.tokens = y.tokens ++ [⟨USER_TOKEN, nul, .str w⟩])
      ∧ (w ≠ "" → (∀ k, (w, k) ∉ keywords) → w ∉ y.userTokens → w ∈ y.userStates →
          y1.tokens = y.tokens ++ [⟨USER_STATE, nul, .str w⟩])
      ∧ (w ≠ "" → (∀ k, (w, k) ∉ keywords) → w ∉ y.userTokens → w ∉ y.userStates →
          y1.tokens = y.tokens ++ [⟨TOKEN_ERROR, nul, .str ("ERR: " ++ w)⟩]) := by
  by_cases hw : w = ""
  · subst hw
    refine ⟨{ y with states := ⟨cur, emptyToken⟩ :: rest }, ?_, rfl, rfl, rfl, ?_, ?_, ?_, ?_, ?_⟩
    · simp [checkKeyword, getTokenString, getToken, getState, hst, replaceToken]
    all_goals simp
  · have hlen : w.length > 0 := (length_pos_iff_ne_empty w).2 hw
    cases hl : lookupKeyword w keywords with
    | some k0 =>
      have hk0 := (lookupKeyword_some_iff w k0).1 hl
      refine ⟨{ send ⟨k0, nul, .str w⟩ y with states := ⟨cur, emptyToken⟩ :: rest },
        ?_, rfl, rfl, rfl, ?_, ?_, ?_, ?_, ?_⟩
      · simp [checkKeyword, getTokenString, getToken, getState, hst, replaceToken, hlen, hl, send]
      · intro h; exact absurd h hw
      · intro _ k hk
        have := (lookupKeyword_some_iff w k).2 hk
        rw [hl] at this
        cases this
        rfl
      · intro _ h; exact absurd hk0 (h k0)
      · intro _ h; exact absurd hk0 (h k0)
      · intro _ h; exact absurd hk0 (h k0)
    | none =>
      have hnone := (lookupKeyword_none_iff w).1 hl
      by_cases ht : w ∈ y.userTokens
      · refine ⟨{ send ⟨USER_TOKEN, nul, .str w⟩ y with states := ⟨cur, emptyToken⟩ :: rest },
          ?_, rfl, rfl, rfl, ?_, ?_, ?_, ?_, ?_⟩
        · simp [checkKeyword, getTokenString, getToken, getState, hst, replaceToken, hlen, hl,
            send, ht]
        · intro h; exact absurd h hw
        · intro _ k hk; exact absurd hk (hnone k)
        · intro _ _ _; rfl
        · intro _ _ h; exact absurd ht h
        · intro _ _ h; exact absurd ht h
      · by_cases hs : w ∈ y.userStates
        · refine ⟨{ send ⟨USER_STATE, nul, .str w⟩ y with states := ⟨cur, emptyToken⟩ :: rest },
            ?_, rfl, rfl, rfl, ?_, ?_, ?_, ?_, ?_⟩
          · simp [checkKeyword, getTokenString, getToken, getState, hst, replaceToken, hlen, hl,
              send, ht, hs]
          · intro h; exact absurd h hw
          · intro _ k hk; exact absurd hk (hnone k)
          · intro _ _ h; exact absurd h ht
          · intro _ _ _ _; rfl
          · intro _ _ _ h; exact absurd hs h
        · refine ⟨{ send ⟨TOKEN_ERROR, nul, .str ("ERR: " ++ w)⟩ y with
              states := ⟨cur, emptyToken⟩ :: rest }, ?_, rfl, rfl, rfl, ?_, ?_, ?_, ?_, ?_⟩
          · simp [checkKeyword, getTokenString, getToken, getState, hst, replaceToken, hlen, hl,
              send, ht, hs]
          · intro h; exact absurd h hw
          · intro _ k hk; exact absurd hk (hnone k)
          · intro _ _ h; exact absurd h ht
          · intro _ _ _ h; exact absurd h hs
          · intro _ _ _ _; rfl

/-- Witness for C1: the lexeme `len` on an Action frame is classified as the
reserved word `len`. -/
theorem checkKeyword_classifies_witness :
    (⟨[⟨STATE_ACTION, ⟨0, 'n', .str "len"⟩⟩], [], 3, [], ["_INIT"]⟩ : Yacc).states
        = [⟨STATE_ACTION, ⟨0, 'n', .str "len"⟩⟩]
      ∧ ∃ y1, checkKeyword ⟨[⟨STATE_ACTION, ⟨0, 'n', .str "len"⟩⟩], [], 3, [], ["_INIT"]⟩ = .ok y1
          ∧ y1.states = [⟨STATE_ACTION, emptyToken⟩]
          ∧ y1.tokens = [⟨TOKEN_LEN, nul, .str "len"⟩] := by
  obtain ⟨y1, h1, h2, _, _, _, hk, _⟩ :=
    checkKeyword_classifies ⟨[⟨STATE_ACTION, ⟨0, 'n', .str "len"⟩⟩], [], 3, [], ["_INIT"]⟩
      STATE_ACTION 0 'n' "len" [] rfl
  exact ⟨rfl, y1, h1, h2, by simpa using hk (by decide) TOKEN_LEN (by decide)⟩

/-! ## Directive name lists -/

theorem splitBy_ne_nil (p : Char → Bool) (l : List Char) : splitBy p l ≠ [] := by
  cases l with
  | nil => simp [splitBy]
  | cons c cs =>
    simp only [splitBy]
    split_ifs
    · simp
    · split <;> simp

theorem splitBy_append_sep (p : Char → Bool) (a b : List Char) (s : Char) (hs : p s = true) :
    splitBy p (a ++ s :: b) = splitBy p a ++ splitBy p b := by
  induction a with
  | nil => simp [splitBy, hs]
  | cons c a ih =>
    simp only [List.cons_append, splitBy]
    by_cases hc : p c = true
    · simp [hc, ih]
    · rw [if_neg hc, if_neg hc]
      have ih1 : splitBy p (a.append (s :: b)) = splitBy p a ++ splitBy p b := ih
      rw [ih1]
      cases h : splitBy p a with
      | nil => exact absurd h (splitBy_ne_nil p a)
      | cons w ws => rfl

theorem splitBy_no_sep (p : Char → Bool) (l : List Char) :
    ∀ w ∈ splitBy p l, ∀ c ∈ w, p c = false := by
  induction l with
  | nil => simp [splitBy]
  | cons c cs ih =>
    simp only [splitBy]
    by_cases hc : p c = true
    · simp only [hc, if_true, List.mem_cons]
      rintro w (rfl | hw)
      · simp
      · exact ih w hw
    · simp only [hc, if_false, Bool.false_eq_true]
      cases h : splitBy p cs with
      | nil => exact absurd h (splitBy_ne_nil p cs)
      | cons w ws =>
        rw [h] at ih
        simp only [List.mem_cons]
        rintro w1 (rfl | hw) d hd
        · rcases List.mem_cons.1 hd with rfl | hd
          · simpa using hc
          · exact ih w (List.mem_cons_self _ _) d hd
        · exact ih w1 (List.mem_cons_of_mem _ hw) d hd

theorem splitBy_congr (p q : Char → Bool) (l : List Char) (h : ∀ c ∈ l, p c = q c) :
    splitBy p l = splitBy q l := by
  induction l with
  | nil => rfl
  | cons c cs ih =>
    have hc := h c (List.mem_cons_self _ _)
    have ih1 := ih (fun d hd => h d (List.mem_cons_of_mem _ hd))
    simp only [splitBy, hc, ih1]

theorem Fields_no_space (line : String) : ∀ f ∈ Fields line, ∀ c ∈ f.data, isSpace c = false := by
  intro f hf c hc
  simp only [Fields, List.mem_map, List.mem_filter] at hf
  obtain ⟨w, ⟨hw, _⟩, rfl⟩ := hf
  exact splitBy_no_sep isSpace line.data w hw c hc

theorem filter_names_map (l : List (List Char)) :
    (l.map String.mk).filter (fun name => name ≠ "")
      = (l.filter (fun w => !w.isEmpty)).map String.mk := by
  induction l with
  | nil => rfl
  | cons w ws ih =>
    cases w with
    | nil => simpa using ih
    | cons c cs =>
      have : (String.mk (c :: cs)) ≠ "" := by
        intro h
        have := congrArg String.data h
        simp at this
      simpa [List.filter_cons, this] using ih

theorem Join_data_no_space (fs : List String)
    (h : ∀ f ∈ fs, ∀ c ∈ f.data, isSpace c = false) :
    ∀ c ∈ (Join "," fs).data, c ≠ ' ' := by
  induction fs with
  | nil => simp [Join]
  | cons x r ih =>
    cases r with
    | nil =>
      intro c hc hcs
      have := h x (List.mem_cons_self _ _) c (by simpa [Join] using hc)
      subst hcs
      simp [isSpace] at this
    | cons x2 r2 =>
      intro c hc hcs
      simp only [Join, String.data_append, List.mem_append] at hc
      rcases hc with (hc | hc) | hc
      · have := h x (List.mem_cons_self _ _) c hc
        subst hcs
        simp [isSpace] at this
      · subst hcs
        simp at hc
      · exact ih (fun f hf => h f (List.mem_cons_of_mem _ hf)) c hc hcs

theorem removeBlanks_Join (fs : List String)
    (h : ∀ f ∈ fs, ∀ c ∈ f.data, isSpace c = false) :
    removeBlanks (Join "," fs) = Join "," fs := by
  unfold removeBlanks
  have : (Join "," fs).data.filter (fun c => c ≠ ' ') = (Join "," fs).data := by
    rw [List.filter_eq_self]
    intro c hc
    simpa using Join_data_no_space fs h c hc
  rw [this]

theorem names_of_Join (fs : List String)
    (h : ∀ f ∈ fs, ∀ c ∈ f.data, isSpace c = false) :
    (Split (Join "," fs)).filter (fun name => name ≠ "") = specNames fs := by
  induction fs with
  | nil => simp [Join, Split, splitBy, specNames]
  | cons x r ih =>
    have hx : splitBy (fun c => c = ',' || isSpace c) x.data
        = splitBy (fun c => decide (c = ',')) x.data := by
      apply splitBy_congr
      intro c hc
      simp [h x (List.mem_cons_self _ _) c hc]
    cases r with
    | nil =>
      simp only [Join, Split, specNames, List.flatMap_cons, List.flatMap_nil, List.append_nil, hx]
      exact filter_names_map _
    | cons x2 r2 =>
      have ih1 := ih (fun f hf => h f (List.mem_cons_of_mem _ hf))
      have hsplit : splitBy (fun c => decide (c = ',')) (x ++ "," ++ Join "," (x2 :: r2)).data
          = splitBy (fun c => decide (c = ',')) x.data
            ++ splitBy (fun c => decide (c = ',')) (Join "," (x2 :: r2)).data := by
        have : (x ++ "," ++ Join "," (x2 :: r2)).data
            = x.data ++ ',' :: (Join "," (x2 :: r2)).data := by
          simp [String.data_append]
        rw [this]
        exact splitBy_append_sep _ _ _ ',' (by simp)
      have e1 : specNames (x :: x2 :: r2)
          = ((splitBy (fun c => c = ',' || isSpace c) x.data).filter
              (fun w => !w.isEmpty)).map String.mk ++ specNames (x2 :: r2) := by
        simp [specNames, List.flatMap_cons]
      rw [e1, ← ih1, hx]
      simp only [Join, Split, hsplit, List.map_append, List.filter_append]
      rw [filter_names_map]

/-- C2. Directives `token` and `state`: the registry named by the directive is
extended by the non-empty names of the remaining fields, split on commas and
whitespace, in order and with duplicates; the other registry is unchanged.
In particular `%token a, b` followed by `%token c` gives exactly `a, b, c`. -/
theorem checkCommand_token_state (y : Yacc) (cur : StateTag) (id : Nat) (ch : Char)
    (line : String) (stk : List State) (rest : List String)
    (hst : y.states = ⟨cur, ⟨id, ch, .str line⟩⟩ :: stk) :
    (Fields line = "token" :: rest →
        ∃ y1, checkCommand y = .ok y1
          ∧ y1.userTokens = y.userTokens ++ specNames rest
          ∧ y1.userStates = y.userStates)
      ∧ (Fields line = "state" :: rest →
        ∃ y1, checkCommand y = .ok y1
          ∧ y1.userStates = y.userStates ++ specNames rest
          ∧ y1.userTokens = y.userTokens)
      ∧ (main "\n%token a, b\n%token c\n".toList).2.userTokens = ["a", "b", "c"] := by
  refine ⟨?_, ?_, by decide⟩
  · intro hf
    have hns : ∀ f ∈ rest, ∀ c ∈ f.data, isSpace c = false := fun f hf1 =>
      Fields_no_space line f (by rw [hf]; exact List.mem_cons_of_mem _ hf1)
    refine ⟨{ y with tokens := y.tokens ++ [⟨TOKEN_INSTRUCTION, nul, .str line⟩],
                     states := stk,
                     userTokens := y.userTokens ++ specNames rest }, ?_, rfl, rfl⟩
    have hn := names_of_Join rest hns
    simp only [ne_eq, decide_not] at hn
    simp [checkCommand, getTokenString, getToken, getState, hst, hf, send, popState,
      appendNames, removeBlanks_Join rest hns, hn]
  · intro hf
    have hns : ∀ f ∈ rest, ∀ c ∈ f.data, isSpace c = false := fun f hf1 =>
      Fields_no_space line f (by rw [hf]; exact List.mem_cons_of_mem _ hf1)
    refine ⟨{ y with tokens := y.tokens ++ [⟨TOKEN_INSTRUCTION, nul, .str line⟩],
                     states := stk,
                     userStates := y.userStates ++ specNames rest }, ?_, rfl, rfl⟩
    have hn := names_of_Join rest hns
    simp only [ne_eq, decide_not] at hn
    simp [checkCommand, getTokenString, getToken, getState, hst, hf, send, popState,
      appendNames, removeBlanks_Join rest hns, hn]

/-- Witness for C2: the line `token a, b` on an empty token registry. -/
theorem checkCommand_token_state_witness :
    Fields "token a, b" = ["token", "a,", "b"]
      ∧ ∃ y1, checkCommand ⟨[⟨STATE_PERCENT, ⟨0, 'b', .str "token a, b"⟩⟩,
                ⟨STATE_INIT, emptyToken⟩], [], -1, [], ["_INIT"]⟩ = .ok y1
          ∧ y1.userTokens = ["a", "b"] ∧ y1.userStates = ["_INIT"] := by
  refine ⟨by decide, ?_⟩
  obtain ⟨y1, h1, h2, h3⟩ :=
    (checkCommand_token_state ⟨[⟨STATE_PERCENT, ⟨0, 'b', .str "token a, b"⟩⟩,
        ⟨STATE_INIT, emptyToken⟩], [], -1, [], ["_INIT"]⟩ STATE_PERCENT 0 'b' "token a, b"
        [⟨STATE_INIT, emptyToken⟩] ["a,", "b"] rfl).1 (by decide)
  exact ⟨y1, h1, by rw [h2]; decide, h3⟩

/-! ## The driver loop and its rune-by-rune view -/

theorem nextState_handler (src : List Char) (y : Yacc) (s : State) (stk : List State)
    (hst : y.states = s :: stk) (hh : isHandlerTag s.current = true) :
    nextState src y = handlerLoop s.current (bodyOf s.current) src y := by
  obtain ⟨tag, tok⟩ := s
  cases tag <;> simp [isHandlerTag] at hh <;>
    simp [nextState, getState, hst, bodyOf, stateInit, stateSlash, stateCComment, stateStar,
      stateLineComment, statePercent, stateyaccRules, stateAction, stateActionBlock,
      stateActionEnd]

theorem nextChar_handler (c : Char) (y : Yacc) (s : State) (stk : List State)
    (hst : y.states = s :: stk) (hh : isHandlerTag s.current = true) :
    nextChar c y = bodyOf s.current c (advance c y) := by
  obtain ⟨tag, tok⟩ := s
  cases tag <;> simp [isHandlerTag] at hh <;> simp [nextChar, getState, hst, bodyOf]

theorem stateError_fails (y : Yacc) : ∃ e, stateError y = .error e := by
  unfold stateError
  cases getTokenString y with
  | error e => exact ⟨e, rfl⟩
  | ok msg => exact ⟨_, rfl⟩

theorem mainLoop_stack (fuel : Nat) (src : List Char) (y : Yacc) (s : State) (stk : List State)
    (hst : y.states = s :: stk) (hs : s.current = STATE_STACK) :
    mainLoop fuel src y = (.outOfFuel, y) := by
  induction fuel with
  | zero => rfl
  | succ n ih =>
    obtain ⟨tag, tok⟩ := s
    simp only at hs
    subst hs
    simp [mainLoop, finished, getState, hst, nextState, ih]

/-- With the reader exhausted the driver stops at its first iteration, whatever the bound. -/
theorem mainLoop_nil (fuel : Nat) (y : Yacc) : mainLoop (fuel + 1) [] y = atEnd y := by
  unfold atEnd
  cases hst : y.states with
  | nil => simp [mainLoop, finished, getState, hst]
  | cons s stk =>
    obtain ⟨tag, tok⟩ := s
    cases tag <;>
      simp [mainLoop, finished, getState, hst, nextState, stateInit, stateSlash, stateCComment,
        stateStar, stateLineComment, statePercent, stateyaccRules, stateAction, stateActionBlock,
        stateActionEnd, handlerLoop, getNext]
    · obtain ⟨e, he⟩ := stateError_fails y
      simp [he]
    · exact mainLoop_stack fuel [] y _ stk hst rfl
    · obtain ⟨e, he⟩ := stateError_fails y
      simp [he]

theorem run_nil (y : Yacc) : run [] y = atEnd y := rfl

theorem run_cons (c : Char) (rest : List Char) (y : Yacc) :
    run (c :: rest) y = match nextChar c y with
      | .error e => e
      | .ok y1 => run rest y1 := by
  simp only [run, consume]
  cases nextChar c y <;> rfl

theorem atEnd_handler (y : Yacc) (s : State) (stk : List State)
    (hst : y.states = s :: stk) (hh : isHandlerTag s.current = true) :
    atEnd y = (.EOF, send ⟨TOKEN_EOF, nul, .str "EOF"⟩ y) := by
  obtain ⟨tag, tok⟩ := s
  cases tag <;> simp [isHandlerTag] at hh <;>
    simp [atEnd, mainLoop, finished, getState, hst, nextState, stateInit, stateSlash,
      stateCComment, stateStar, stateLineComment, statePercent, stateyaccRules, stateAction,
      stateActionBlock, stateActionEnd, handlerLoop, getNext]

/-- After a handler loop returns, the driver goes on exactly as the
rune-by-rune run does. -/
theorem handlerLoop_then_mainLoop (fuel : Nat) (tag : StateTag) (htag : isHandlerTag tag = true)
    (ih : ∀ src y, src.length < fuel → mainLoop fuel src y = run src y) :
    ∀ (src : List Char) (y : Yacc), src.length < fuel →
      (match handlerLoop tag (bodyOf tag) src y with
        | .error e => e
        | .ok (src1, y1) => mainLoop fuel src1 y1) = run src y := by
  intro src
  induction src with
  | nil =>
    intro y hlen
    cases hst : y.states with
    | nil =>
      cases fuel with
      | zero => simp at hlen
      | succ n => simp [handlerLoop, getState, hst, run, consume, atEnd, mainLoop, finished]
    | cons s stk =>
      by_cases hs : s.current = tag
      · subst hs
        simp [handlerLoop, getState, hst, getNext, run_nil, atEnd_handler y s stk hst htag]
      · simp only [handlerLoop, getState, hst, hs, if_false]
        exact ih [] y hlen
  | cons c rest ihr =>
    intro y hlen
    cases hst : y.states with
    | nil => simp [handlerLoop, getState, hst, run, consume, nextChar]
    | cons s stk =>
      by_cases hs : s.current = tag
      · subst hs
        rw [run_cons, nextChar_handler c y s stk hst htag]
        simp only [handlerLoop, getState, hst, if_true]
        cases hb : bodyOf s.current c (advance c y) with
        | error e => rfl
        | ok y1 =>
          simp only
          exact ihr y1 (Nat.lt_of_succ_lt hlen)
      · simp only [handlerLoop, getState, hst, hs, if_false]
        exact ih (c :: rest) y hlen

/-- The driver loop of `main`, given more iterations than there are runes to
read, computes the rune-by-rune run. -/
theorem mainLoop_eq_run (fuel : Nat) :
    ∀ (src : List Char) (y : Yacc), src.length < fuel → mainLoop fuel src y = run src y := by
  induction fuel with
  | zero => intro src y h; simp at h
  | succ n ih =>
    intro src y hlen
    cases src with
    | nil => rw [mainLoop_nil, run_nil]
    | cons c rest =>
      have hrest : rest.length < n := by simpa using hlen
      cases hst : y.states with
      | nil => simp [mainLoop, finished, getState, hst, run, consume, nextChar]
      | cons s stk =>
        by_cases hh : isHandlerTag s.current = true
        · have hfin : finished y = .ok false := by
            obtain ⟨tag, tok⟩ := s
            cases tag <;> simp [isHandlerTag] at hh <;> simp [finished, getState, hst]
          rw [run_cons, nextChar_handler c y s stk hst hh]
          simp only [mainLoop, hfin, nextState_handler (c :: rest) y s stk hst hh]
          simp only [handlerLoop, getState, hst, if_true]
          cases hb : bodyOf s.current c (advance c y) with
          | error e => rfl
          | ok y1 =>
            simp only
            exact handlerLoop_then_mainLoop n s.current hh ih rest y1 hrest
        · obtain ⟨tag, tok⟩ := s
          cases tag <;> simp [isHandlerTag] at hh
          · simp [mainLoop, finished, getState, hst, run, consume, nextChar]
          · obtain ⟨e, he⟩ := stateError_fails y
            simp [mainLoop, finished, getState, hst, run, consume, nextChar, nextState, he]
          · rw [mainLoop_stack (n + 1) (c :: rest) y _ stk hst rfl]
            simp [run, consume, nextChar, getState, hst]
          · obtain ⟨e, he⟩ := stateError_fails y
            simp [mainLoop, finished, getState, hst, run, consume, nextChar, nextState, he]

/-! ## Single steps of the comment states -/

theorem consume_append (a b : List Char) (y : Yacc) :
    consume (a ++ b) y = match consume a y with
      | .error e => .error e
      | .ok y1 => consume b y1 := by
  induction a generalizing y with
  | nil => rfl
  | cons c a ih =>
    simp only [List.cons_append, consume]
    cases nextChar c y with
    | error e => rfl
    | ok y1 => exact ih y1

theorem nextChar_slash_intercept (tag : StateTag) (htag : runsInterceptor tag = true) (f : Token)
    (r : List State) (toks : List Token) (pos : Int) (ut us : List String) :
    nextChar '/' ⟨⟨tag, f⟩ :: r, toks, pos, ut, us⟩
      = .ok ⟨⟨STATE_SLASH, ⟨47, '/', .rune '/'⟩⟩ :: ⟨tag, f⟩ :: r, toks, pos + 1, ut, us⟩ := by
  cases tag <;> simp [runsInterceptor] at htag <;>
    simp [nextChar, getState, advance, checkComments, pushState, stateInitBody, statePercentBody,
      stateyaccRulesBody, stateActionBody, stateActionBlockBody, stateActionEndBody,
      bind, Except.bind, pure, Except.pure]

theorem nextChar_hash_intercept (tag : StateTag) (htag : runsInterceptor tag = true) (f : Token)
    (r : List State) (toks : List Token) (pos : Int) (ut us : List String) :
    nextChar '#' ⟨⟨tag, f⟩ :: r, toks, pos, ut, us⟩
      = .ok ⟨⟨STATE_LINECOMMENT, ⟨35, '#', .str "#"⟩⟩ :: ⟨tag, f⟩ :: r, toks, pos + 1, ut, us⟩ := by
  cases tag <;> simp [runsInterceptor] at htag <;>
    simp [nextChar, getState, advance, checkComments, pushState, stateInitBody, statePercentBody,
      stateyaccRulesBody, stateActionBody, stateActionBlockBody, stateActionEndBody,
      bind, Except.bind, pure, Except.pure]
  all_goals rfl

theorem nextChar_slash_star (f : Token) (r : List State) (toks : List Token) (pos : Int)
    (ut us : List String) :
    nextChar '*' ⟨⟨STATE_SLASH, f⟩ :: r, toks, pos, ut, us⟩
      = .ok ⟨⟨STATE_CCOMMENT, ⟨TOKEN_SLASHSTAR, nul, .str "/*"⟩⟩ :: r, toks, pos + 1, ut, us⟩ := by
  simp [nextChar, getState, advance, stateSlashBody, replaceState, popState, pushState]

theorem nextChar_slash_slash (f : Token) (r : List State) (toks : List Token) (pos : Int)
    (ut us : List String) :
    nextChar '/' ⟨⟨STATE_SLASH, f⟩ :: r, toks, pos, ut, us⟩
      = .ok ⟨⟨STATE_LINECOMMENT, ⟨TOKEN_DOUBLESLASH, nul, .str "//"⟩⟩ :: r, toks, pos + 1,
          ut, us⟩ := by
  simp [nextChar, getState, advance, stateSlashBody, replaceState, popState, pushState]

theorem nextChar_ccomment_other (c : Char) (hc : c ≠ '*') (id : Nat) (ch : Char) (v : String)
    (r : List State) (toks : List Token) (pos : Int) (ut us : List String) :
    nextChar c ⟨⟨STATE_CCOMMENT, ⟨id, ch, .str v⟩⟩ :: r, toks, pos, ut, us⟩
      = .ok ⟨⟨STATE_CCOMMENT, ⟨0, c, .str (v.push c)⟩⟩ :: r, toks,
          pos + columns [c], ut, us⟩ := by
  by_cases hn : c = '\n' <;>
    simp [nextChar, getState, advance, stateCCommentBody, getTokenString, getToken, replaceToken,
      hc, hn, columns, bind, Except.bind]

theorem nextChar_ccomment_star (id : Nat) (ch : Char) (v : String)
    (r : List State) (toks : List Token) (pos : Int) (ut us : List String) :
    nextChar '*' ⟨⟨STATE_CCOMMENT, ⟨id, ch, .str v⟩⟩ :: r, toks, pos, ut, us⟩
      = .ok ⟨⟨STATE_STAR, ⟨0, '*', .str (v.push '*')⟩⟩
              :: ⟨STATE_CCOMMENT, ⟨id, ch, .str v⟩⟩ :: r, toks, pos + 1, ut, us⟩ := by
  simp [nextChar, getState, advance, stateCCommentBody, getTokenString, getToken, pushState,
    bind, Except.bind, pure, Except.pure]

theorem nextChar_star_slash (id : Nat) (ch : Char) (w : String) (s : State)
    (r : List State) (toks : List Token) (pos : Int) (ut us : List String) :
    nextChar '/' ⟨⟨STATE_STAR, ⟨id, ch, .str w⟩⟩ :: s :: r, toks, pos, ut, us⟩
      = .ok ⟨r, toks ++ [⟨TOKEN_STARSLASH, nul, .str (w ++ "/")⟩], pos + 1, ut, us⟩ := by
  simp [nextChar, getState, advance, stateStarBody, getTokenString, getToken, popState, send,
    bind, Except.bind, pure, Except.pure]

theorem nextChar_linecomment_other (c : Char) (hr : c ≠ '\r') (hn : c ≠ '\n') (id : Nat)
    (ch : Char) (v : String) (r : List State) (toks : List Token) (pos : Int)
    (ut us : List String) :
    nextChar c ⟨⟨STATE_LINECOMMENT, ⟨id, ch, .str v⟩⟩ :: r, toks, pos, ut, us⟩
      = .ok ⟨⟨STATE_LINECOMMENT, ⟨0, c, .str (v.push c)⟩⟩ :: r, toks, pos + 1, ut, us⟩ := by
  simp [nextChar, getState, advance, stateLineCommentBody, accumulate, getTokenString, getToken,
    replaceToken, hr, hn, bind, Except.bind, pure, Except.pure]

theorem nextChar_linecomment_lf (f : Token) (r : List State) (toks : List Token) (pos : Int)
    (ut us : List String) :
    nextChar '\n' ⟨⟨STATE_LINECOMMENT, f⟩ :: r, toks, pos, ut, us⟩
      = .ok ⟨r, toks ++ [⟨TOKEN_COMMENTLINE, nul, f.value⟩], -1, ut, us⟩ := by
  simp [nextChar, getState, advance, stateLineCommentBody, popState, send,
    bind, Except.bind, pure, Except.pure]

theorem columns_cons (c : Char) (t : List Char) : columns (c :: t) = columns [c] + columns t := by
  by_cases hn : c = '\n'
  · simp [columns, hn, List.filter_cons]
  · simp [columns, hn, List.filter_cons]
    omega

theorem push_append_mk (v : String) (c : Char) (t : List Char) :
    v.push c ++ String.mk t = v ++ String.mk (c :: t) := by
  apply String.ext
  simp [String.data_append, String.data_push]

theorem append_mk_nil (v : String) : v ++ String.mk [] = v := by
  apply String.ext
  simp [String.data_append]

/-- The block-comment state accumulates a star-free text. -/
theorem consume_ccomment_text (t : List Char) (ht : ∀ c ∈ t, c ≠ '*') :
    ∀ (id : Nat) (ch : Char) (v : String) (r : List State) (toks : List Token) (pos : Int)
      (ut us : List String),
      ∃ id1 ch1, consume t ⟨⟨STATE_CCOMMENT, ⟨id, ch, .str v⟩⟩ :: r, toks, pos, ut, us⟩
        = .ok ⟨⟨STATE_CCOMMENT, ⟨id1, ch1, .str (v ++ String.mk t)⟩⟩ :: r, toks,
            pos + columns t, ut, us⟩ := by
  induction t with
  | nil =>
    intro id ch v r toks pos ut us
    exact ⟨id, ch, by simp [consume, columns, append_mk_nil]⟩
  | cons c t ih =>
    intro id ch v r toks pos ut us
    have hc : c ≠ '*' := ht c (List.mem_cons_self _ _)
    obtain ⟨id1, ch1, h1⟩ := ih (fun d hd => ht d (List.mem_cons_of_mem _ hd)) 0 c (v.push c) r
      toks (pos + columns [c]) ut us
    refine ⟨id1, ch1, ?_⟩
    simp only [consume, nextChar_ccomment_other c hc]
    rw [h1, push_append_mk, columns_cons c t, add_assoc]

/-- The line-comment state accumulates a text without CR and LF. -/
theorem consume_linecomment_text (t : List Char) (ht : ∀ c ∈ t, c ≠ '\r' ∧ c ≠ '\n') :
    ∀ (id : Nat) (ch : Char) (v : String) (r : List State) (toks : List Token) (pos : Int)
      (ut us : List String),
      ∃ id1 ch1, consume t ⟨⟨STATE_LINECOMMENT, ⟨id, ch, .str v⟩⟩ :: r, toks, pos, ut, us⟩
        = .ok ⟨⟨STATE_LINECOMMENT, ⟨id1, ch1, .str (v ++ String.mk t)⟩⟩ :: r, toks,
            pos + t.length, ut, us⟩ := by
  induction t with
  | nil =>
    intro id ch v r toks pos ut us
    exact ⟨id, ch, by simp [consume, append_mk_nil]⟩
  | cons c t ih =>
    intro id ch v r toks pos ut us
    have hc := ht c (List.mem_cons_self _ _)
    obtain ⟨id1, ch1, h1⟩ := ih (fun d hd => ht d (List.mem_cons_of_mem _ hd)) 0 c (v.push c) r
      toks (pos + 1) ut us
    refine ⟨id1, ch1, ?_⟩
    simp only [consume, nextChar_linecomment_other c hc.1 hc.2]
    rw [h1, push_append_mk]
    simp only [List.length_cons, Nat.cast_add, Nat.cast_one]
    rw [show pos + 1 + (t.length : Int) = pos + ((t.length : Int) + 1) by omega]

/-- A block comment read from a state that runs the interceptor: one
close-comment token, the stack restored, the column counter advanced. -/
theorem consume_block_comment (tag : StateTag) (htag : runsInterceptor tag = true) (f : Token)
    (t : List Char) (ht : ∀ c ∈ t, c ≠ '*')
    (r : List State) (toks : List Token) (pos : Int) (ut us : List String) :
    consume ('/' :: '*' :: (t ++ ['*', '/'])) ⟨⟨tag, f⟩ :: r, toks, pos, ut, us⟩
      = .ok ⟨⟨tag, f⟩ :: r,
          toks ++ [⟨TOKEN_STARSLASH, nul, .str ("/*" ++ String.mk t ++ "*/")⟩],
          pos + 4 + columns t, ut, us⟩ := by
  obtain ⟨id1, ch1, h1⟩ := consume_ccomment_text t ht TOKEN_SLASHSTAR nul "/*" (⟨tag, f⟩ :: r)
    toks (pos + 1 + 1) ut us
  simp only [consume, nextChar_slash_intercept tag htag, nextChar_slash_star, consume_append, h1,
    nextChar_ccomment_star, nextChar_star_slash]
  have e1 : ("/*" ++ String.mk t).push '*' ++ "/" = "/*" ++ String.mk t ++ "*/" := by
    apply String.ext
    simp [String.data_append, String.data_push]
  rw [e1]
  congr 2
  omega

/-- A `#` line comment read from a state that runs the interceptor. -/
theorem consume_hash_comment (tag : StateTag) (htag : runsInterceptor tag = true) (f : Token)
    (t : List Char) (ht : ∀ c ∈ t, c ≠ '\r' ∧ c ≠ '\n')
    (r : List State) (toks : List Token) (pos : Int) (ut us : List String) :
    consume ('#' :: (t ++ ['\n'])) ⟨⟨tag, f⟩ :: r, toks, pos, ut, us⟩
      = .ok ⟨⟨tag, f⟩ :: r,
          toks ++ [⟨TOKEN_COMMENTLINE, nul, .str ("#" ++ String.mk t)⟩], -1, ut, us⟩ := by
  obtain ⟨id1, ch1, h1⟩ := consume_linecomment_text t ht 35 '#' "#" (⟨tag, f⟩ :: r)
    toks (pos + 1) ut us
  simp only [consume, nextChar_hash_intercept tag htag, consume_append, h1,
    nextChar_linecomment_lf]

/-- A `//` line comment read from a state that runs the interceptor. -/
theorem consume_slash_comment (tag : StateTag) (htag : runsInterceptor tag = true) (f : Token)
    (t : List Char) (ht : ∀ c ∈ t, c ≠ '\r' ∧ c ≠ '\n')
    (r : List State) (toks : List Token) (pos : Int) (ut us : List String) :
    consume ('/' :: '/' :: (t ++ ['\n'])) ⟨⟨tag, f⟩ :: r, toks, pos, ut, us⟩
      = .ok ⟨⟨tag, f⟩ :: r,
          toks ++ [⟨TOKEN_COMMENTLINE, nul, .str ("//" ++ String.mk t)⟩], -1, ut, us⟩ := by
  obtain ⟨id1, ch1, h1⟩ := consume_linecomment_text t ht TOKEN_DOUBLESLASH nul "//"
    (⟨tag, f⟩ :: r) toks (pos + 1 + 1) ut us
  simp only [consume, nextChar_slash_intercept tag htag, nextChar_slash_slash, consume_append, h1,
    nextChar_linecomment_lf]

/-! ## Comments -/

/-- C7. A block comment with star-free text, read while GrammarRules, Action or
ActionBlock is active, sends exactly one token, the close-comment token
carrying the whole comment, and leaves the context stack as it was. -/
theorem block_comment_resumes (y : Yacc) (tag : StateTag) (f : Token) (r : List State)
    (t : List Char)
    (htag : tag = STATE_YACCRULES ∨ tag = STATE_ACTION ∨ tag = STATE_ACTIONBLOCK)
    (hst : y.states = ⟨tag, f⟩ :: r) (ht : ∀ c ∈ t, c ≠ '*') :
    ∃ y1, consume ("/*".toList ++ t ++ "*/".toList) y = .ok y1
      ∧ y1.tokens = y.tokens ++ [⟨TOKEN_STARSLASH, nul, .str ("/*" ++ String.mk t ++ "*/")⟩]
      ∧ y1.states = y.states
      ∧ y1.userTokens = y.userTokens ∧ y1.userStates = y.userStates := by
  obtain ⟨st, toks, pos, ut, us⟩ := y
  simp only at hst
  subst hst
  have hi : runsInterceptor tag = true := by
    rcases htag with h | h | h <;> subst h <;> rfl
  exact ⟨_, consume_block_comment tag hi f t ht r toks pos ut us, rfl, rfl, rfl, rfl⟩

/-- Witness for C7: the comment `/* c */` read in the Action state with a
partial lexeme `le`. -/
theorem block_comment_resumes_witness :
    ∃ y1, consume ("/*".toList ++ " c ".toList ++ "*/".toList)
            ⟨[⟨STATE_ACTION, ⟨0, 'e', .str "le"⟩⟩], [], 5, [], ["_INIT"]⟩ = .ok y1
      ∧ y1.tokens = [⟨TOKEN_STARSLASH, nul, .str ("/*" ++ String.mk " c ".toList ++ "*/")⟩]
      ∧ y1.states = [⟨STATE_ACTION, ⟨0, 'e', .str "le"⟩⟩] := by
  obtain ⟨y1, h1, h2, h3, _⟩ :=
    block_comment_resumes ⟨[⟨STATE_ACTION, ⟨0, 'e', .str "le"⟩⟩], [], 5, [], ["_INIT"]⟩
      STATE_ACTION ⟨0, 'e', .str "le"⟩ [] " c ".toList (Or.inr (Or.inl rfl)) rfl (by decide)
  exact ⟨y1, h1, by simpa using h2, h3⟩

/-- C9. A line comment (`#` or `//`) with text free of CR and LF, read in a
state that runs the interceptor and closed by LF, sends exactly one
comment-line token carrying the comment, resets the column counter and leaves
the context stack as it was. -/
theorem line_comment_resumes (y : Yacc) (tag : StateTag) (f : Token) (r : List State)
    (t : List Char) (htag : runsInterceptor tag = true)
    (hst : y.states = ⟨tag, f⟩ :: r) (ht : ∀ c ∈ t, c ≠ '\r' ∧ c ≠ '\n') :
    (∃ y1, consume ("#".toList ++ t ++ "\n".toList) y = .ok y1
      ∧ y1.tokens = y.tokens ++ [⟨TOKEN_COMMENTLINE, nul, .str ("#" ++ String.mk t)⟩]
      ∧ y1.position = -1
      ∧ y1.states = y.states
      ∧ y1.userTokens = y.userTokens ∧ y1.userStates = y.userStates)
    ∧ (∃ y1, consume ("//".toList ++ t ++ "\n".toList) y = .ok y1
      ∧ y1.tokens = y.tokens ++ [⟨TOKEN_COMMENTLINE, nul, .str ("//" ++ String.mk t)⟩]
      ∧ y1.position = -1
      ∧ y1.states = y.states
      ∧ y1.userTokens = y.userTokens ∧ y1.userStates = y.userStates) := by
  obtain ⟨st, toks, pos, ut, us⟩ := y
  simp only at hst
  subst hst
  exact ⟨⟨_, consume_hash_comment tag htag f t ht r toks pos ut us, rfl, rfl, rfl, rfl, rfl⟩,
    ⟨_, consume_slash_comment tag htag f t ht r toks pos ut us, rfl, rfl, rfl, rfl, rfl⟩⟩

/-- Witness for C9: the comment `# note` read in the Directive state. -/
theorem line_comment_resumes_witness :
    ∃ y1, consume ("#".toList ++ " note".toList ++ "\n".toList)
            ⟨[⟨STATE_PERCENT, ⟨0, 'n', .str "token"⟩⟩, ⟨STATE_INIT, emptyToken⟩], [], 5, [],
              ["_INIT"]⟩ = .ok y1
      ∧ y1.tokens = [⟨TOKEN_COMMENTLINE, nul, .str ("#" ++ String.mk " note".toList)⟩]
      ∧ y1.position = -1
      ∧ y1.states = [⟨STATE_PERCENT, ⟨0, 'n', .str "token"⟩⟩, ⟨STATE_INIT, emptyToken⟩] := by
  obtain ⟨y1, h1, h2, h3, h4, _⟩ :=
    (line_comment_resumes
      ⟨[⟨STATE_PERCENT, ⟨0, 'n', .str "token"⟩⟩, ⟨STATE_INIT, emptyToken⟩], [], 5, [], ["_INIT"]⟩
      STATE_PERCENT ⟨0, 'n', .str "token"⟩ [⟨STATE_INIT, emptyToken⟩] " note".toList rfl rfl
      (by decide)).1
  exact ⟨y1, h1, by simpa using h2, h3, h4⟩

/-! ## Preamble -/

theorem nextChar_init_plain (c : Char) (h1 : c ≠ '%') (h2 : c ≠ '/') (h3 : c ≠ '#') (f : Token)
    (r : List State) (toks : List Token) (pos : Int) (ut us : List String) :
    ∃ f1 pos1, nextChar c ⟨⟨STATE_INIT, f⟩ :: r, toks, pos, ut, us⟩
      = .ok ⟨⟨STATE_INIT, f1⟩ :: r,
          toks ++ (if sendsRaw c = true then [⟨0, c, .str (String.singleton c)⟩] else []),
          pos1, ut, us⟩ := by
  by_cases hn : c = '\n'
  · subst hn
    exact ⟨f, -1, by
      simp [nextChar, getState, advance, stateInitBody, checkComments, sendsRaw,
        bind, Except.bind, pure, Except.pure]⟩
  · by_cases hr : c = '\r'
    · subst hr
      exact ⟨f, pos + 1, by
        simp [nextChar, getState, advance, stateInitBody, checkComments, sendsRaw,
          bind, Except.bind, pure, Except.pure]⟩
    · by_cases hb : c = ' ' ∨ c = '\t'
      · refine ⟨f, pos + 1, ?_⟩
        rcases hb with hb | hb <;> subst hb <;>
          simp [nextChar, getState, advance, stateInitBody, checkComments, sendsRaw, isBlank,
            bind, Except.bind, pure, Except.pure]
      · simp only [not_or] at hb
        refine ⟨⟨0, c, .str (String.singleton c)⟩, pos + 1, ?_⟩
        simp [nextChar, getState, advance, stateInitBody, checkComments, sendsRaw, isBlank,
          replaceToken, send, h1, h2, h3, hn, hr, hb.1, hb.2, bind, Except.bind, pure,
          Except.pure]

theorem consume_init_plain (input : List Char)
    (h : ∀ c ∈ input, c ≠ '%' ∧ c ≠ '/' ∧ c ≠ '#') :
    ∀ (f : Token) (r : List State) (toks : List Token) (pos : Int) (ut us : List String),
      ∃ f1 pos1, consume input ⟨⟨STATE_INIT, f⟩ :: r, toks, pos, ut, us⟩
        = .ok ⟨⟨STATE_INIT, f1⟩ :: r,
            toks ++ (input.filter sendsRaw).map (fun c => ⟨0, c, .str (String.singleton c)⟩),
            pos1, ut, us⟩ := by
  induction input with
  | nil =>
    intro f r toks pos ut us
    exact ⟨f, pos, by simp [consume]⟩
  | cons c rest ih =>
    intro f r toks pos ut us
    obtain ⟨h1, h2, h3⟩ := h c (List.mem_cons_self _ _)
    obtain ⟨f1, pos1, hc⟩ := nextChar_init_plain c h1 h2 h3 f r toks pos ut us
    obtain ⟨f2, pos2, hr⟩ := ih (fun d hd => h d (List.mem_cons_of_mem _ hd)) f1 r
      (toks ++ (if sendsRaw c = true then [⟨0, c, .str (String.singleton c)⟩] else []))
      pos1 ut us
    refine ⟨f2, pos2, ?_⟩
    simp only [consume, hc, hr]
    by_cases hs : sendsRaw c = true <;> simp [hs, List.filter_cons]

/-- C4. On an input without `%`, `/` and `#` the run from the initial
configuration stops at end of input, and before the end-of-input token it has
sent exactly one token per rune other than blank, tab, CR and LF, in input
order, each with that rune as its payload. -/
theorem preamble_raw_tokens (input : List Char)
    (h : ∀ c ∈ input, c ≠ '%' ∧ c ≠ '/' ∧ c ≠ '#') :
    (main input).1 = .EOF
      ∧ (main input).2.tokens
          = (input.filter (fun c => !(c = ' ' || c = '\t' || c = '\r' || c = '\n'))).map
              (fun c => ⟨0, c, .str (String.singleton c)⟩)
            ++ [⟨TOKEN_EOF, nul, .str "EOF"⟩] := by
  obtain ⟨f1, pos1, hc⟩ := consume_init_plain input h emptyToken [] [] 0 [] ["_INIT"]
  have hm : main input = run input initial :=
    mainLoop_eq_run (input.length + 1) input initial (Nat.lt_succ_self _)
  have hr : run input initial = (.EOF, send ⟨TOKEN_EOF, nul, .str "EOF"⟩
      ⟨[⟨STATE_INIT, f1⟩], [] ++ (input.filter sendsRaw).map
        (fun c => ⟨0, c, .str (String.singleton c)⟩), pos1, [], ["_INIT"]⟩) := by
    simp only [run]
    have : initial = ⟨[⟨STATE_INIT, emptyToken⟩], [], 0, [], ["_INIT"]⟩ := rfl
    rw [this, hc]
    exact atEnd_handler _ ⟨STATE_INIT, f1⟩ [] rfl rfl
  rw [hm, hr]
  refine ⟨rfl, ?_⟩
  simp only [send, List.nil_append]
  rfl

/-- Witness for C4: the input `a b`. -/
theorem preamble_raw_tokens_witness :
    (∀ c ∈ "a b\n".toList, c ≠ '%' ∧ c ≠ '/' ∧ c ≠ '#')
      ∧ (main "a b\n".toList).1 = .EOF
      ∧ (main "a b\n".toList).2.tokens
          = [⟨0, 'a', .str "a"⟩, ⟨0, 'b', .str "b"⟩, ⟨TOKEN_EOF, nul, .str "EOF"⟩] := by
  have h := preamble_raw_tokens "a b\n".toList (by decide)
  exact ⟨by decide, h.1, by rw [h.2]; decide⟩

/-! ## Rule lines and action blocks -/

/-- C5 as stated fails: from the start-of-line GrammarRules configuration the
input `abc<TAB>return;<LF>` sends the rule pattern `abc` and then an
error-category token for the word `return;`; no `return`-category token is sent. -/
theorem return_semicolon_is_error :
    consume "abc\treturn;\n".toList ⟨[⟨STATE_YACCRULES, emptyToken⟩], [], -1, [], ["_INIT"]⟩
        = .ok ⟨[⟨STATE_YACCRULES, emptyToken⟩],
            [⟨TOKEN_REGEXP, '\t', .str "abc"⟩, ⟨TOKEN_ERROR, nul, .str "ERR: return;"⟩],
            -1, [], ["_INIT"]⟩
      ∧ ¬ ∃ t ∈ [(⟨TOKEN_REGEXP, '\t', .str "abc"⟩ : Token),
                  ⟨TOKEN_ERROR, nul, .str "ERR: return;"⟩], t.id = TOKEN_RETURN :=
  ⟨rfl, by decide⟩

/-- C5, amended. From a configuration whose only frame is GrammarRules with an
empty lexeme and the column counter at its start-of-line value, the input
`abc<TAB>return<LF>` sends the rule pattern `abc` and then the `return` token and
leaves GrammarRules active.  With `return;` as the action word, the word is
classified as a whole: the second token is never of the `return` category, and it
is the error token `ERR: return;` unless `return;` was declared. -/
theorem rule_line_return (id : Nat) (ch : Char) (toks : List Token) (ut us : List String) :
    consume "abc\treturn\n".toList ⟨[⟨STATE_YACCRULES, ⟨id, ch, .str ""⟩⟩], toks, -1, ut, us⟩
        = .ok ⟨[⟨STATE_YACCRULES, emptyToken⟩],
            toks ++ [⟨TOKEN_REGEXP, '\t', .str "abc"⟩, ⟨TOKEN_RETURN, nul, .str "return"⟩],
            -1, ut, us⟩
      ∧ ∃ tk, consume "abc\treturn;\n".toList
                ⟨[⟨STATE_YACCRULES, ⟨id, ch, .str ""⟩⟩], toks, -1, ut, us⟩
            = .ok ⟨[⟨STATE_YACCRULES, emptyToken⟩],
                toks ++ [⟨TOKEN_REGEXP, '\t', .str "abc"⟩, tk], -1, ut, us⟩
          ∧ tk.id ≠ TOKEN_RETURN
          ∧ ("return;" ∉ ut → "return;" ∉ us → tk = ⟨TOKEN_ERROR, nul, .str "ERR: return;"⟩) := by
  have e1 : (("".push 'a').push 'b').push 'c' = "abc" := by decide
  have e2 : ((((("".push 'r').push 'e').push 't').push 'u').push 'r').push 'n' = "return" := by
    decide
  have e3 : (((((("".push 'r').push 'e').push 't').push 'u').push 'r').push 'n').push ';'
      = "return;" := by decide
  have e4 : "ERR: " ++ "return;" = "ERR: return;" := by decide
  have l1 : 0 < "return".length := by decide
  have l2 : 0 < "return;".length := by decide
  constructor
  · simp [consume, nextChar, getState, advance, stateyaccRulesBody, stateActionBody,
      checkComments, pushState, popState, replaceState, replaceToken, getToken, getTokenString,
      accumulate, send, checkKeyword, isBlank, lookupKeyword, keywords, emptyToken, e1, e2, l1,
      bind, Except.bind, pure, Except.pure]
  · by_cases h1 : "return;" ∈ ut
    · refine ⟨⟨USER_TOKEN, nul, .str "return;"⟩, ?_, by decide, fun h => absurd h1 h⟩
      simp [consume, nextChar, getState, advance, stateyaccRulesBody, stateActionBody,
        checkComments, pushState, popState, replaceState, replaceToken, getToken,
        getTokenString, accumulate, send, checkKeyword, isBlank, lookupKeyword, keywords,
        emptyToken, e1, e3, l2, h1, bind, Except.bind, pure, Except.pure]
    · by_cases h2 : "return;" ∈ us
      · refine ⟨⟨USER_STATE, nul, .str "return;"⟩, ?_, by decide, fun _ h => absurd h2 h⟩
        simp [consume, nextChar, getState, advance, stateyaccRulesBody, stateActionBody,
          checkComments, pushState, popState, replaceState, replaceToken, getToken,
          getTokenString, accumulate, send, checkKeyword, isBlank, lookupKeyword, keywords,
          emptyToken, e1, e3, l2, h1, h2, bind, Except.bind, pure, Except.pure]
      · refine ⟨⟨TOKEN_ERROR, nul, .str "ERR: return;"⟩, ?_, by decide, fun _ _ => rfl⟩
        simp [consume, nextChar, getState, advance, stateyaccRulesBody, stateActionBody,
          checkComments, pushState, popState, replaceState, replaceToken, getToken,
          getTokenString, accumulate, send, checkKeyword, isBlank, lookupKeyword, keywords,
          emptyToken, e1, e3, l2, e4, h1, h2, bind, Except.bind, pure, Except.pure]

theorem keyword_ne_EOF (w : String) (k : Nat) (h : lookupKeyword w keywords = some k) :
    k ≠ TOKEN_EOF := by
  have hk := (lookupKeyword_some_iff w k).1 h
  simp only [keywords, List.mem_cons, Prod.mk.injEq, List.mem_singleton, List.not_mem_nil,
    or_false] at hk
  rcases hk with ⟨_, rfl⟩ | ⟨_, rfl⟩ | ⟨_, rfl⟩ | ⟨_, rfl⟩ | ⟨_, rfl⟩ | ⟨_, rfl⟩ <;> decide

theorem checkKeyword_eq (tag : StateTag) (id : Nat) (ch : Char) (w : String) (r : List State)
    (toks : List Token) (pos : Int) (ut us : List String) :
    checkKeyword ⟨⟨tag, ⟨id, ch, .str w⟩⟩ :: r, toks, pos, ut, us⟩
      = .ok ⟨⟨tag, emptyToken⟩ :: r, toks ++ classified w ut us, pos, ut, us⟩ := by
  simp only [checkKeyword, getTokenString, getToken, getState, classified]
  by_cases hw : w.length > 0
  · cases hl : lookupKeyword w keywords with
    | some k => simp [hw, replaceToken, send]
    | none =>
      by_cases h1 : w ∈ ut
      · simp [hw, h1, replaceToken, send]
      · by_cases h2 : w ∈ us
        · simp [hw, h1, h2, replaceToken, send]
        · simp [hw, h1, h2, replaceToken, send]
  · simp [hw, replaceToken]

theorem classified_noEOF (w : String) (ut us : List String) : noEOF (classified w ut us) := by
  unfold classified
  by_cases hw : w.length > 0
  · cases hl : lookupKeyword w keywords with
    | some k =>
      have := keyword_ne_EOF w k hl
      simp [hw, noEOF, this]
    | none =>
      by_cases h1 : w ∈ ut
      · simp [hw, h1, noEOF, USER_TOKEN, TOKEN_EOF]
      · by_cases h2 : w ∈ us
        · simp [hw, h1, h2, noEOF, USER_STATE, TOKEN_EOF]
        · simp [hw, h1, h2, noEOF, TOKEN_ERROR, TOKEN_EOF]
  · simp [hw, noEOF]

/-- The possible results of the Directive Processor on a Directive frame that
lies on another frame. -/
theorem checkCommand_shape (tag : StateTag) (id : Nat) (ch : Char) (line : String) (b : State)
    (r : List State) (toks : List Token) (pos : Int) (ut us : List String) :
    (∃ y1, checkCommand ⟨⟨tag, ⟨id, ch, .str line⟩⟩ :: b :: r, toks, pos, ut, us⟩
        = .error (.panic, y1))
      ∨ (∃ ut1 us1, checkCommand ⟨⟨tag, ⟨id, ch, .str line⟩⟩ :: b :: r, toks, pos, ut, us⟩
        = .ok ⟨b :: r, toks ++ [⟨TOKEN_INSTRUCTION, nul, .str line⟩], pos, ut1, us1⟩)
      ∨ (∃ f0 rest, Fields line = f0 :: rest ∧ f0 = "yacc"
          ∧ checkCommand ⟨⟨tag, ⟨id, ch, .str line⟩⟩ :: b :: r, toks, pos, ut, us⟩
            = .ok ⟨⟨STATE_YACCRULES, emptyToken⟩ :: r,
                toks ++ [⟨TOKEN_INSTRUCTION, nul, .str line⟩], pos, ut, us⟩) := by
  simp only [checkCommand, getTokenString, getToken, getState]
  cases hf : Fields line with
  | nil => exact Or.inl ⟨_, rfl⟩
  | cons f0 rest =>
    by_cases h1 : f0 = "yacc"
    · exact Or.inr (Or.inr ⟨f0, rest, rfl, h1, by
        simp [h1, popState, replaceState, pushState, send]⟩)
    by_cases h2 : f0 = "only"
    · exact Or.inr (Or.inl ⟨ut, us, by simp [h1, h2, popState, send]⟩)
    by_cases h3 : f0 = "except"
    · exact Or.inr (Or.inl ⟨ut, us, by simp [h1, h2, h3, popState, send]⟩)
    by_cases h4 : f0 = "include"
    · exact Or.inr (Or.inl ⟨ut, us, by simp [h1, h2, h3, h4, popState, send]⟩)
    by_cases h5 : f0 = "output"
    · exact Or.inr (Or.inl ⟨ut, us, by simp [h1, h2, h3, h4, h5, popState, send]⟩)
    by_cases h6 : f0 = "token"
    · exact Or.inr (Or.inl ⟨appendNames ut (removeBlanks (Join "," rest)), us, by
        simp [h1, h2, h3, h4, h5, h6, popState, send]⟩)
    by_cases h7 : f0 = "state"
    · exact Or.inr (Or.inl ⟨ut, appendNames us (removeBlanks (Join "," rest)), by
        simp [h1, h2, h3, h4, h5, h6, h7, popState, send]⟩)
    by_cases h8 : f0 = "alias"
    · match rest with
      | [] => exact Or.inl ⟨_, by simp only [h8]; rfl⟩
      | [_] => exact Or.inl ⟨_, by simp only [h8]; rfl⟩
      | _ :: _ :: _ =>
        exact Or.inr (Or.inl ⟨ut, us, by simp [h1, h2, h3, h4, h5, h6, h7, h8, popState, send]⟩)
    · exact Or.inr (Or.inl ⟨ut, us, by simp [h1, h2, h3, h4, h5, h6, h7, h8, popState, send]⟩)

theorem goodStack_cons (s : State) (r : List State) :
    goodStack (s :: r) =
      match s.current with
      | STATE_SLASH =>
        decide (s.token.id ≠ TOKEN_EOF)
          && (match s.token.value with
              | .rune _ => true
              | .str _ => false)
          && lineStack r
      | STATE_LINECOMMENT => okToken s.token && lineStack r
      | STATE_CCOMMENT => okToken s.token && lineStack r
      | STATE_STAR =>
        okToken s.token &&
          match r with
          | c :: r1 => decide (c.current = STATE_CCOMMENT) && okToken c.token && lineStack r1
          | [] => false
      | _ => lineStack (s :: r) := rfl

theorem lineStack_one (b : State) : lineStack [b] = (isBase b.current && okToken b.token) := rfl

theorem lineStack_two (p b : State) :
    lineStack [p, b] =
      (decide (p.current = STATE_PERCENT) && okToken p.token
        && (decide (b.current = STATE_INIT) || decide (b.current = STATE_YACCRULES))
        && okToken b.token) := rfl

theorem lineStack_good (l : List State) (h : lineStack l = true) : goodStack l = true := by
  match l, h with
  | [b], h =>
    obtain ⟨tag, tok⟩ := b
    cases tag <;> simp [lineStack, isBase] at h <;> simp [goodStack, lineStack, isBase, h]
  | [p, b], h =>
    obtain ⟨tag, tok⟩ := p
    simp only [lineStack, Bool.and_eq_true, decide_eq_true_eq] at h
    obtain ⟨⟨⟨h1, h2⟩, h3⟩, h4⟩ := h
    subst h1
    simp [goodStack, lineStack, h2, h3, h4]

theorem noEOF_append_iff (a b : List Token) : noEOF (a ++ b) ↔ noEOF a ∧ noEOF b := by
  simp only [noEOF, List.mem_append]
  constructor
  · intro h
    exact ⟨fun t ht => h t (Or.inl ht), fun t ht => h t (Or.inr ht)⟩
  · rintro ⟨ha, hb⟩ t (ht | ht)
    · exact ha t ht
    · exact hb t ht

theorem noEOF_cons (t : Token) (l : List Token) :
    noEOF (t :: l) ↔ t.id ≠ TOKEN_EOF ∧ noEOF l := by
  simp [noEOF]

theorem noEOF_nil : noEOF [] ↔ True := by
  simp [noEOF]
theorem inv_init (c : Char) (id : Nat) (ch : Char) (v : String)
    (toks : List Token) (pos : Int) (ut us : List String)
    (hid : id ≠ TOKEN_EOF) (ht : noEOF toks) :
    stepOK (nextChar c ⟨[⟨STATE_INIT, ⟨id, ch, .str v⟩⟩], toks, pos, ut, us⟩) := by
  simp only [TOKEN_EOF, ne_eq] at hid
  by_cases h1 : c = '/'
  · subst h1
    simp [stepOK, nextChar, getState, advance, checkComments, pushState, popState, replaceState,
      replaceToken, getToken, getTokenString, accumulate, send, Inv, goodStack_cons,
      lineStack_one, lineStack_two, isBase, okToken, noEOF_append_iff, noEOF_cons, noEOF_nil,
      TOKEN_EOF, emptyToken, bind, Except.bind, pure, Except.pure, stateInitBody, hid, isBlank,
      ht]
  by_cases h2 : c = '#'
  · subst h2
    simp [stepOK, nextChar, getState, advance, checkComments, pushState, popState, replaceState,
      replaceToken, getToken, getTokenString, accumulate, send, Inv, goodStack_cons,
      lineStack_one, lineStack_two, isBase, okToken, noEOF_append_iff, noEOF_cons, noEOF_nil,
      TOKEN_EOF, emptyToken, bind, Except.bind, pure, Except.pure, stateInitBody, hid, h1,
      isBlank, ht]
  by_cases h3 : c = '\n'
  · subst h3
    simp [stepOK, nextChar, getState, advance, checkComments, pushState, popState, replaceState,
      replaceToken, getToken, getTokenString, accumulate, send, Inv, goodStack_cons,
      lineStack_one, lineStack_two, isBase, okToken, noEOF_append_iff, noEOF_cons, noEOF_nil,
      TOKEN_EOF, emptyToken, bind, Except.bind, pure, Except.pure, stateInitBody, hid, h1, h2,
      isBlank, ht]
  by_cases h4 : c = '%' ∧ pos + 1 = 0
  · simp [stepOK, nextChar, getState, advance, checkComments, pushState, popState, replaceState,
      replaceToken, getToken, getTokenString, accumulate, send, Inv, goodStack_cons,
      lineStack_one, lineStack_two, isBase, okToken, noEOF_append_iff, noEOF_cons, noEOF_nil,
      TOKEN_EOF, emptyToken, bind, Except.bind, pure, Except.pure, stateInitBody, hid, h1, h2,
      h3, h4, isBlank, ht]
  by_cases h5 : c = '\r'
  · subst h5
    simp [stepOK, nextChar, getState, advance, checkComments, pushState, popState, replaceState,
      replaceToken, getToken, getTokenString, accumulate, send, Inv, goodStack_cons,
      lineStack_one, lineStack_two, isBase, okToken, noEOF_append_iff, noEOF_cons, noEOF_nil,
      TOKEN_EOF, emptyToken, bind, Except.bind, pure, Except.pure, stateInitBody, hid, h1, h2,
      h3, h4, isBlank, ht]
  by_cases h6 : isBlank c = true
  · simp [stepOK, nextChar, getState, advance, checkComments, pushState, popState, replaceState,
      replaceToken, getToken, getTokenString, accumulate, send, Inv, goodStack_cons,
      lineStack_one, lineStack_two, isBase, okToken, noEOF_append_iff, noEOF_cons, noEOF_nil,
      TOKEN_EOF, emptyToken, bind, Except.bind, pure, Except.pure, stateInitBody, hid, h1, h2,
      h3, h4, h5, h6, ht]
  simp [stepOK, nextChar, getState, advance, checkComments, pushState, popState, replaceState,
    replaceToken, getToken, getTokenString, accumulate, send, Inv, goodStack_cons, lineStack_one,
    lineStack_two, isBase, okToken, noEOF_append_iff, noEOF_cons, noEOF_nil, TOKEN_EOF,
    emptyToken, bind, Except.bind, pure, Except.pure, stateInitBody, hid, h1, h2, h3, h4, h5, h6,
    ht]

theorem inv_yaccRules (c : Char) (id : Nat) (ch : Char) (v : String)
    (toks : List Token) (pos : Int) (ut us : List String)
    (hid : id ≠ TOKEN_EOF) (ht : noEOF toks) :
    stepOK (nextChar c ⟨[⟨STATE_YACCRULES, ⟨id, ch, .str v⟩⟩], toks, pos, ut, us⟩) := by
  simp only [TOKEN_EOF, ne_eq] at hid
  by_cases h1 : c = '/'
  · subst h1
    simp [stepOK, nextChar, getState, advance, checkComments, pushState, popState, replaceState,
      replaceToken, getToken, getTokenString, accumulate, send, Inv, goodStack_cons,
      lineStack_one, lineStack_two, isBase, okToken, noEOF_append_iff, noEOF_cons, noEOF_nil,
      TOKEN_EOF, emptyToken, bind, Except.bind, pure, Except.pure, stateyaccRulesBody, hid,
      isBlank, ht]
  by_cases h2 : c = '#'
  · subst h2
    simp [stepOK, nextChar, getState, advance, checkComments, pushState, popState, replaceState,
      replaceToken, getToken, getTokenString, accumulate, send, Inv, goodStack_cons,
      lineStack_one, lineStack_two, isBase, okToken, noEOF_append_iff, noEOF_cons, noEOF_nil,
      TOKEN_EOF, emptyToken, bind, Except.bind, pure, Except.pure, stateyaccRulesBody, hid, h1,
      isBlank, ht]
  by_cases h3 : c = '\n'
  · subst h3
    by_cases hp : 0 < pos
    · simp [stepOK, nextChar, getState, advance, checkComments, pushState, popState,
        replaceState, replaceToken, getToken, getTokenString, accumulate, send, Inv,
        goodStack_cons, lineStack_one, lineStack_two, isBase, okToken, noEOF_append_iff,
        noEOF_cons, noEOF_nil, TOKEN_EOF, emptyToken, bind, Except.bind, pure, Except.pure,
        stateyaccRulesBody, hid, h1, h2, isBlank, ht, hp, TOKEN_REGEXP]
    · simp [stepOK, nextChar, getState, advance, checkComments, pushState, popState,
        replaceState, replaceToken, getToken, getTokenString, accumulate, send, Inv,
        goodStack_cons, lineStack_one, lineStack_two, isBase, okToken, noEOF_append_iff,
        noEOF_cons, noEOF_nil, TOKEN_EOF, emptyToken, bind, Except.bind, pure, Except.pure,
        stateyaccRulesBody, hid, h1, h2, isBlank, ht, hp, TOKEN_REGEXP]
  by_cases h4 : c = '%' ∧ pos + 1 = 0
  · simp [stepOK, nextChar, getState, advance, checkComments, pushState, popState, replaceState,
      replaceToken, getToken, getTokenString, accumulate, send, Inv, goodStack_cons,
      lineStack_one, lineStack_two, isBase, okToken, noEOF_append_iff, noEOF_cons, noEOF_nil,
      TOKEN_EOF, emptyToken, bind, Except.bind, pure, Except.pure, stateyaccRulesBody, hid, h1,
      h2, h3, h4, isBlank, ht]
  by_cases h5 : c = '\t' ∧ pos + 1 > 0
  · simp [stepOK, nextChar, getState, advance, checkComments, pushState, popState, replaceState,
      replaceToken, getToken, getTokenString, accumulate, send, Inv, goodStack_cons,
      lineStack_one, lineStack_two, isBase, okToken, noEOF_append_iff, noEOF_cons, noEOF_nil,
      TOKEN_EOF, emptyToken, bind, Except.bind, pure, Except.pure, stateyaccRulesBody, hid, h1,
      h2, h3, h4, h5, isBlank, ht, TOKEN_REGEXP]
  by_cases h6 : c = '\r'
  · subst h6
    simp [stepOK, nextChar, getState, advance, checkComments, pushState, popState, replaceState,
      replaceToken, getToken, getTokenString, accumulate, send, Inv, goodStack_cons,
      lineStack_one, lineStack_two, isBase, okToken, noEOF_append_iff, noEOF_cons, noEOF_nil,
      TOKEN_EOF, emptyToken, bind, Except.bind, pure, Except.pure, stateyaccRulesBody, hid, h1,
      h2, h3, h4, h5, isBlank, ht]
  simp [stepOK, nextChar, getState, advance, checkComments, pushState, popState, replaceState,
    replaceToken, getToken, getTokenString, accumulate, send, Inv, goodStack_cons, lineStack_one,
    lineStack_two, isBase, okToken, noEOF_append_iff, noEOF_cons, noEOF_nil, TOKEN_EOF,
    emptyToken, bind, Except.bind, pure, Except.pure, stateyaccRulesBody, hid, h1, h2, h3, h4,
    h5, h6, ht]

theorem inv_actionEnd (c : Char) (id : Nat) (ch : Char) (v : String)
    (toks : List Token) (pos : Int) (ut us : List String)
    (hid : id ≠ TOKEN_EOF) (ht : noEOF toks) :
    stepOK (nextChar c ⟨[⟨STATE_ACTIONEND, ⟨id, ch, .str v⟩⟩], toks, pos, ut, us⟩) := by
  simp only [TOKEN_EOF, ne_eq] at hid
  by_cases h1 : c = '/'
  · subst h1
    simp [stepOK, nextChar, getState, advance, checkComments, pushState, popState, replaceState,
      replaceToken, getToken, getTokenString, accumulate, send, Inv, goodStack_cons,
      lineStack_one, lineStack_two, isBase, okToken, noEOF_append_iff, noEOF_cons, noEOF_nil,
      TOKEN_EOF, emptyToken, bind, Except.bind, pure, Except.pure, stateActionEndBody, hid,
      isBlank, ht]
  by_cases h2 : c = '#'
  · subst h2
    simp [stepOK, nextChar, getState, advance, checkComments, pushState, popState, replaceState,
      replaceToken, getToken, getTokenString, accumulate, send, Inv, goodStack_cons,
      lineStack_one, lineStack_two, isBase, okToken, noEOF_append_iff, noEOF_cons, noEOF_nil,
      TOKEN_EOF, emptyToken, bind, Except.bind, pure, Except.pure, stateActionEndBody, hid, h1,
      isBlank, ht]
  by_cases h3 : c = '\n'
  · subst h3
    simp [stepOK, nextChar, getState, advance, checkComments, pushState, popState, replaceState,
      replaceToken, getToken, getTokenString, accumulate, send, Inv, goodStack_cons,
      lineStack_one, lineStack_two, isBase, okToken, noEOF_append_iff, noEOF_cons, noEOF_nil,
      TOKEN_EOF, emptyToken, bind, Except.bind, pure, Except.pure, stateActionEndBody, hid, h1,
      h2, isBlank, ht]
  by_cases h5 : c = '\r'
  · subst h5
    simp [stepOK, nextChar, getState, advance, checkComments, pushState, popState, replaceState,
      replaceToken, getToken, getTokenString, accumulate, send, Inv, goodStack_cons,
      lineStack_one, lineStack_two, isBase, okToken, noEOF_append_iff, noEOF_cons, noEOF_nil,
      TOKEN_EOF, emptyToken, bind, Except.bind, pure, Except.pure, stateActionEndBody, hid, h1,
      h2, h3, isBlank, ht]
  by_cases h6 : isBlank c = true
  · simp [stepOK, nextChar, getState, advance, checkComments, pushState, popState, replaceState,
      replaceToken, getToken, getTokenString, accumulate, send, Inv, goodStack_cons,
      lineStack_one, lineStack_two, isBase, okToken, noEOF_append_iff, noEOF_cons, noEOF_nil,
      TOKEN_EOF, emptyToken, bind, Except.bind, pure, Except.pure, stateActionEndBody, hid, h1,
      h2, h3, h5, h6, ht]
  simp [stepOK, nextChar, getState, advance, checkComments, pushState, popState, replaceState,
    replaceToken, getToken, getTokenString, accumulate, send, Inv, goodStack_cons, lineStack_one,
    lineStack_two, isBase, okToken, noEOF_append_iff, noEOF_cons, noEOF_nil, TOKEN_EOF,
    emptyToken, bind, Except.bind, pure, Except.pure, stateActionEndBody, hid, h1, h2, h3, h5,
    h6, ht]

theorem inv_action (c : Char) (id : Nat) (ch : Char) (v : String)
    (toks : List Token) (pos : Int) (ut us : List String)
    (hid : id ≠ TOKEN_EOF) (ht : noEOF toks) :
    stepOK (nextChar c ⟨[⟨STATE_ACTION, ⟨id, ch, .str v⟩⟩], toks, pos, ut, us⟩) := by
  have hk := classified_noEOF v ut us
  simp only [TOKEN_EOF, ne_eq] at hid
  by_cases h1 : c = '/'
  · subst h1
    simp [stepOK, nextChar, getState, advance, checkComments, pushState, popState, replaceState,
      replaceToken, getToken, getTokenString, accumulate, send, Inv, goodStack_cons,
      lineStack_one, lineStack_two, isBase, okToken, noEOF_append_iff, noEOF_cons, noEOF_nil,
      TOKEN_EOF, emptyToken, bind, Except.bind, pure, Except.pure, stateActionBody, hid,
      checkKeyword_eq, hk, isBlank, ht]
  by_cases h2 : c = '#'
  · subst h2
    simp [stepOK, nextChar, getState, advance, checkComments, pushState, popState, replaceState,
      replaceToken, getToken, getTokenString, accumulate, send, Inv, goodStack_cons,
      lineStack_one, lineStack_two, isBase, okToken, noEOF_append_iff, noEOF_cons, noEOF_nil,
      TOKEN_EOF, emptyToken, bind, Except.bind, pure, Except.pure, stateActionBody, hid,
      checkKeyword_eq, hk, h1, isBlank, ht]
  by_cases h3 : c = '\n'
  · subst h3
    by_cases hp : v = ""
    · simp [stepOK, nextChar, getState, advance, checkComments, pushState, popState,
        replaceState, replaceToken, getToken, getTokenString, accumulate, send, Inv,
        goodStack_cons, lineStack_one, lineStack_two, isBase, okToken, noEOF_append_iff,
        noEOF_cons, noEOF_nil, TOKEN_EOF, emptyToken, bind, Except.bind, pure, Except.pure,
        stateActionBody, hid, checkKeyword_eq, hk, h1, h2, isBlank, ht, hp]
    · simp [stepOK, nextChar, getState, advance, checkComments, pushState, popState,
        replaceState, replaceToken, getToken, getTokenString, accumulate, send, Inv,
        goodStack_cons, lineStack_one, lineStack_two, isBase, okToken, noEOF_append_iff,
        noEOF_cons, noEOF_nil, TOKEN_EOF, emptyToken, bind, Except.bind, pure, Except.pure,
        stateActionBody, hid, checkKeyword_eq, hk, h1, h2, isBlank, ht, hp]
  by_cases h6 : isBlank c = true
  · simp [stepOK, nextChar, getState, advance, checkComments, pushState, popState, replaceState,
      replaceToken, getToken, getTokenString, accumulate, send, Inv, goodStack_cons,
      lineStack_one, lineStack_two, isBase, okToken, noEOF_append_iff, noEOF_cons, noEOF_nil,
      TOKEN_EOF, emptyToken, bind, Except.bind, pure, Except.pure, stateActionBody, hid,
      checkKeyword_eq, hk, h1, h2, h3, h6, ht]
  by_cases h5 : c = '\r'
  · subst h5
    simp [stepOK, nextChar, getState, advance, checkComments, pushState, popState, replaceState,
      replaceToken, getToken, getTokenString, accumulate, send, Inv, goodStack_cons,
      lineStack_one, lineStack_two, isBase, okToken, noEOF_append_iff, noEOF_cons, noEOF_nil,
      TOKEN_EOF, emptyToken, bind, Except.bind, pure, Except.pure, stateActionBody, hid,
      checkKeyword_eq, hk, h1, h2, h3, h6, isBlank, ht]
  by_cases h4 : c = '\x7b' ∧ pos + 1 > 0
  · simp [stepOK, nextChar, getState, advance, checkComments, pushState, popState, replaceState,
      replaceToken, getToken, getTokenString, accumulate, send, Inv, goodStack_cons,
      lineStack_one, lineStack_two, isBase, okToken, noEOF_append_iff, noEOF_cons, noEOF_nil,
      TOKEN_EOF, emptyToken, bind, Except.bind, pure, Except.pure, stateActionBody, hid,
      checkKeyword_eq, hk, h1, h2, h3, h6, h5, h4, isBlank, ht, TOKEN_BLOCKSTART]
  simp [stepOK, nextChar, getState, advance, checkComments, pushState, popState, replaceState,
    replaceToken, getToken, getTokenString, accumulate, send, Inv, goodStack_cons, lineStack_one,
    lineStack_two, isBase, okToken, noEOF_append_iff, noEOF_cons, noEOF_nil, TOKEN_EOF,
    emptyToken, bind, Except.bind, pure, Except.pure, stateActionBody, hid, checkKeyword_eq, hk,
    h1, h2, h3, h6, h5, h4, ht]

theorem inv_actionBlock (c : Char) (id : Nat) (ch : Char) (v : String)
    (toks : List Token) (pos : Int) (ut us : List String)
    (hid : id ≠ TOKEN_EOF) (ht : noEOF toks) :
    stepOK (nextChar c ⟨[⟨STATE_ACTIONBLOCK, ⟨id, ch, .str v⟩⟩], toks, pos, ut, us⟩) := by
  have hk := classified_noEOF v ut us
  simp only [TOKEN_EOF, ne_eq] at hid
  by_cases h1 : c = '/'
  · subst h1
    simp [stepOK, nextChar, getState, advance, checkComments, pushState, popState, replaceState,
      replaceToken, getToken, getTokenString, accumulate, send, Inv, goodStack_cons,
      lineStack_one, lineStack_two, isBase, okToken, noEOF_append_iff, noEOF_cons, noEOF_nil,
      TOKEN_EOF, emptyToken, bind, Except.bind, pure, Except.pure, stateActionBlockBody, hid,
      checkKeyword_eq, hk, isBlank, ht]
  by_cases h2 : c = '#'
  · subst h2
    simp [stepOK, nextChar, getState, advance, checkComments, pushState, popState, replaceState,
      replaceToken, getToken, getTokenString, accumulate, send, Inv, goodStack_cons,
      lineStack_one, lineStack_two, isBase, okToken, noEOF_append_iff, noEOF_cons, noEOF_nil,
      TOKEN_EOF, emptyToken, bind, Except.bind, pure, Except.pure, stateActionBlockBody, hid,
      checkKeyword_eq, hk, h1, isBlank, ht]
  by_cases h3 : c = '\n'
  · subst h3
    simp [stepOK, nextChar, getState, advance, checkComments, pushState, popState, replaceState,
      replaceToken, getToken, getTokenString, accumulate, send, Inv, goodStack_cons,
      lineStack_one, lineStack_two, isBase, okToken, noEOF_append_iff, noEOF_cons, noEOF_nil,
      TOKEN_EOF, emptyToken, bind, Except.bind, pure, Except.pure, stateActionBlockBody, hid,
      checkKeyword_eq, hk, h1, h2, isBlank, ht]
  by_cases h6 : isBlank c = true
  · simp [stepOK, nextChar, getState, advance, checkComments, pushState, popState, replaceState,
      replaceToken, getToken, getTokenString, accumulate, send, Inv, goodStack_cons,
      lineStack_one, lineStack_two, isBase, okToken, noEOF_append_iff, noEOF_cons, noEOF_nil,
      TOKEN_EOF, emptyToken, bind, Except.bind, pure, Except.pure, stateActionBlockBody, hid,
      checkKeyword_eq, hk, h1, h2, h3, h6, ht]
  by_cases h5 : c = '\r'
  · subst h5
    simp [stepOK, nextChar, getState, advance, checkComments, pushState, popState, replaceState,
      replaceToken, getToken, getTokenString, accumulate, send, Inv, goodStack_cons,
      lineStack_one, lineStack_two, isBase, okToken, noEOF_append_iff, noEOF_cons, noEOF_nil,
      TOKEN_EOF, emptyToken, bind, Except.bind, pure, Except.pure, stateActionBlockBody, hid,
      checkKeyword_eq, hk, h1, h2, h3, h6, isBlank, ht]
  by_cases h4 : c = '\x7d'
  · simp [stepOK, nextChar, getState, advance, checkComments, pushState, popState, replaceState,
      replaceToken, getToken, getTokenString, accumulate, send, Inv, goodStack_cons,
      lineStack_one, lineStack_two, isBase, okToken, noEOF_append_iff, noEOF_cons, noEOF_nil,
      TOKEN_EOF, emptyToken, bind, Except.bind, pure, Except.pure, stateActionBlockBody, hid,
      checkKeyword_eq, hk, h1, h2, h3, h6, h5, h4, isBlank, ht, TOKEN_BLOCKEND]
  simp [stepOK, nextChar, getState, advance, checkComments, pushState, popState, replaceState,
    replaceToken, getToken, getTokenString, accumulate, send, Inv, goodStack_cons, lineStack_one,
    lineStack_two, isBase, okToken, noEOF_append_iff, noEOF_cons, noEOF_nil, TOKEN_EOF,
    emptyToken, bind, Except.bind, pure, Except.pure, stateActionBlockBody, hid, checkKeyword_eq,
    hk, h1, h2, h3, h6, h5, h4, ht]
theorem inv_lineComment (c : Char) (id : Nat) (ch : Char) (v : String) (r : List State)
    (toks : List Token) (pos : Int) (ut us : List String)
    (hid : id ≠ TOKEN_EOF) (hr : lineStack r = true) (ht : noEOF toks) :
    stepOK (nextChar c ⟨⟨STATE_LINECOMMENT, ⟨id, ch, .str v⟩⟩ :: r, toks, pos, ut, us⟩) := by
  have hg := lineStack_good r hr
  simp only [TOKEN_EOF, ne_eq] at hid
  by_cases h5 : c = '\r'
  · subst h5
    simp [stepOK, nextChar, getState, advance, checkComments, pushState, popState, replaceState,
      replaceToken, getToken, getTokenString, accumulate, send, Inv, goodStack_cons,
      lineStack_one, lineStack_two, isBase, okToken, noEOF_append_iff, noEOF_cons, noEOF_nil,
      TOKEN_EOF, emptyToken, bind, Except.bind, pure, Except.pure, stateLineCommentBody, hid, hr,
      hg, isBlank, ht]
  by_cases h3 : c = '\n'
  · subst h3
    simp [stepOK, nextChar, getState, advance, checkComments, pushState, popState, replaceState,
      replaceToken, getToken, getTokenString, accumulate, send, Inv, goodStack_cons,
      lineStack_one, lineStack_two, isBase, okToken, noEOF_append_iff, noEOF_cons, noEOF_nil,
      TOKEN_EOF, emptyToken, bind, Except.bind, pure, Except.pure, stateLineCommentBody, hid, hr,
      hg, h5, isBlank, ht, TOKEN_COMMENTLINE]
  simp [stepOK, nextChar, getState, advance, checkComments, pushState, popState, replaceState,
    replaceToken, getToken, getTokenString, accumulate, send, Inv, goodStack_cons, lineStack_one,
    lineStack_two, isBase, okToken, noEOF_append_iff, noEOF_cons, noEOF_nil, TOKEN_EOF,
    emptyToken, bind, Except.bind, pure, Except.pure, stateLineCommentBody, hid, hr, hg, h5, h3,
    ht]

theorem inv_cComment (c : Char) (id : Nat) (ch : Char) (v : String) (r : List State)
    (toks : List Token) (pos : Int) (ut us : List String)
    (hid : id ≠ TOKEN_EOF) (hr : lineStack r = true) (ht : noEOF toks) :
    stepOK (nextChar c ⟨⟨STATE_CCOMMENT, ⟨id, ch, .str v⟩⟩ :: r, toks, pos, ut, us⟩) := by
  have hg := lineStack_good r hr
  simp only [TOKEN_EOF, ne_eq] at hid
  by_cases h3 : c = '\n'
  · subst h3
    simp [stepOK, nextChar, getState, advance, checkComments, pushState, popState, replaceState,
      replaceToken, getToken, getTokenString, accumulate, send, Inv, goodStack_cons,
      lineStack_one, lineStack_two, isBase, okToken, noEOF_append_iff, noEOF_cons, noEOF_nil,
      TOKEN_EOF, emptyToken, bind, Except.bind, pure, Except.pure, stateCCommentBody, hid, hr,
      hg, isBlank, ht]
  by_cases h1 : c = '*'
  · subst h1
    simp [stepOK, nextChar, getState, advance, checkComments, pushState, popState, replaceState,
      replaceToken, getToken, getTokenString, accumulate, send, Inv, goodStack_cons,
      lineStack_one, lineStack_two, isBase, okToken, noEOF_append_iff, noEOF_cons, noEOF_nil,
      TOKEN_EOF, emptyToken, bind, Except.bind, pure, Except.pure, stateCCommentBody, hid, hr,
      hg, h3, isBlank, ht]
  simp [stepOK, nextChar, getState, advance, checkComments, pushState, popState, replaceState,
    replaceToken, getToken, getTokenString, accumulate, send, Inv, goodStack_cons, lineStack_one,
    lineStack_two, isBase, okToken, noEOF_append_iff, noEOF_cons, noEOF_nil, TOKEN_EOF,
    emptyToken, bind, Except.bind, pure, Except.pure, stateCCommentBody, hid, hr, hg, h3, h1, ht]

theorem inv_slash (c : Char) (id : Nat) (ch q : Char) (r : List State)
    (toks : List Token) (pos : Int) (ut us : List String)
    (hid : id ≠ TOKEN_EOF) (hr : lineStack r = true) (ht : noEOF toks) :
    stepOK (nextChar c ⟨⟨STATE_SLASH, ⟨id, ch, .rune q⟩⟩ :: r, toks, pos, ut, us⟩) := by
  have hg := lineStack_good r hr
  simp only [TOKEN_EOF, ne_eq] at hid
  by_cases h3 : c = '\n'
  · subst h3
    simp [stepOK, nextChar, getState, advance, checkComments, pushState, popState, replaceState,
      replaceToken, getToken, getTokenString, accumulate, send, Inv, goodStack_cons,
      lineStack_one, lineStack_two, isBase, okToken, noEOF_append_iff, noEOF_cons, noEOF_nil,
      TOKEN_EOF, emptyToken, bind, Except.bind, pure, Except.pure, stateSlashBody, hid, hr, hg,
      isBlank, ht]
  by_cases h1 : c = '/'
  · subst h1
    simp [stepOK, nextChar, getState, advance, checkComments, pushState, popState, replaceState,
      replaceToken, getToken, getTokenString, accumulate, send, Inv, goodStack_cons,
      lineStack_one, lineStack_two, isBase, okToken, noEOF_append_iff, noEOF_cons, noEOF_nil,
      TOKEN_EOF, emptyToken, bind, Except.bind, pure, Except.pure, stateSlashBody, hid, hr, hg,
      h3, isBlank, ht, TOKEN_DOUBLESLASH]
  by_cases h2 : c = '*'
  · subst h2
    simp [stepOK, nextChar, getState, advance, checkComments, pushState, popState, replaceState,
      replaceToken, getToken, getTokenString, accumulate, send, Inv, goodStack_cons,
      lineStack_one, lineStack_two, isBase, okToken, noEOF_append_iff, noEOF_cons, noEOF_nil,
      TOKEN_EOF, emptyToken, bind, Except.bind, pure, Except.pure, stateSlashBody, hid, hr, hg,
      h3, h1, isBlank, ht, TOKEN_SLASHSTAR]
  by_cases h6 : isBlank c = true
  · simp [stepOK, nextChar, getState, advance, checkComments, pushState, popState, replaceState,
      replaceToken, getToken, getTokenString, accumulate, send, Inv, goodStack_cons,
      lineStack_one, lineStack_two, isBase, okToken, noEOF_append_iff, noEOF_cons, noEOF_nil,
      TOKEN_EOF, emptyToken, bind, Except.bind, pure, Except.pure, stateSlashBody, hid, hr, hg,
      h3, h1, h2, h6, ht]
  simp [stepOK, nextChar, getState, advance, checkComments, pushState, popState, replaceState,
    replaceToken, getToken, getTokenString, accumulate, send, Inv, goodStack_cons, lineStack_one,
    lineStack_two, isBase, okToken, noEOF_append_iff, noEOF_cons, noEOF_nil, TOKEN_EOF,
    emptyToken, bind, Except.bind, pure, Except.pure, stateSlashBody, hid, hr, hg, h3, h1, h2,
    h6, ht]

theorem inv_star (c : Char) (id : Nat) (ch : Char) (v : String) (id1 : Nat) (ch1 : Char) (v1 : String) (r : List State)
    (toks : List Token) (pos : Int) (ut us : List String)
    (hid : id ≠ TOKEN_EOF) (hid1 : id1 ≠ TOKEN_EOF) (hr : lineStack r = true) (ht : noEOF toks) :
    stepOK (nextChar c ⟨⟨STATE_STAR, ⟨id, ch, .str v⟩⟩ :: ⟨STATE_CCOMMENT, ⟨id1, ch1, .str v1⟩⟩ :: r, toks, pos, ut, us⟩) := by
  have hg := lineStack_good r hr
  simp only [TOKEN_EOF, ne_eq] at hid
  simp only [TOKEN_EOF, ne_eq] at hid1
  by_cases h3 : c = '\n'
  · subst h3
    simp [stepOK, nextChar, getState, advance, checkComments, pushState, popState, replaceState,
      replaceToken, getToken, getTokenString, accumulate, send, Inv, goodStack_cons,
      lineStack_one, lineStack_two, isBase, okToken, noEOF_append_iff, noEOF_cons, noEOF_nil,
      TOKEN_EOF, emptyToken, bind, Except.bind, pure, Except.pure, stateStarBody, hid, hid1, hr,
      hg, isBlank, ht]
  by_cases h1 : c = '/'
  · subst h1
    simp [stepOK, nextChar, getState, advance, checkComments, pushState, popState, replaceState,
      replaceToken, getToken, getTokenString, accumulate, send, Inv, goodStack_cons,
      lineStack_one, lineStack_two, isBase, okToken, noEOF_append_iff, noEOF_cons, noEOF_nil,
      TOKEN_EOF, emptyToken, bind, Except.bind, pure, Except.pure, stateStarBody, hid, hid1, hr,
      hg, h3, isBlank, ht, TOKEN_STARSLASH]
  by_cases h2 : c = '*'
  · subst h2
    simp [stepOK, nextChar, getState, advance, checkComments, pushState, popState, replaceState,
      replaceToken, getToken, getTokenString, accumulate, send, Inv, goodStack_cons,
      lineStack_one, lineStack_two, isBase, okToken, noEOF_append_iff, noEOF_cons, noEOF_nil,
      TOKEN_EOF, emptyToken, bind, Except.bind, pure, Except.pure, stateStarBody, hid, hid1, hr,
      hg, h3, h1, isBlank, ht]
  simp [stepOK, nextChar, getState, advance, checkComments, pushState, popState, replaceState,
    replaceToken, getToken, getTokenString, accumulate, send, Inv, goodStack_cons, lineStack_one,
    lineStack_two, isBase, okToken, noEOF_append_iff, noEOF_cons, noEOF_nil, TOKEN_EOF,
    emptyToken, bind, Except.bind, pure, Except.pure, stateStarBody, hid, hid1, hr, hg, h3, h1,
    h2, ht]
theorem inv_percent (c : Char) (id : Nat) (ch : Char) (v : String) (btag : StateTag) (id1 : Nat)
    (ch1 : Char) (v1 : String) (toks : List Token) (pos : Int) (ut us : List String)
    (hb : btag = STATE_INIT ∨ btag = STATE_YACCRULES) (hid : id ≠ TOKEN_EOF)
    (hid1 : id1 ≠ TOKEN_EOF) (ht : noEOF toks) :
    stepOK (nextChar c ⟨[⟨STATE_PERCENT, ⟨id, ch, .str v⟩⟩, ⟨btag, ⟨id1, ch1, .str v1⟩⟩], toks, pos,
      ut, us⟩) := by
  simp only [TOKEN_EOF, ne_eq] at hid hid1
  by_cases h1 : c = '/'
  · subst h1
    rcases hb with rfl | rfl
    · simp [stepOK, nextChar, getState, advance, checkComments, pushState, popState,
        replaceState, replaceToken, getToken, getTokenString, accumulate, send, Inv,
        goodStack_cons, lineStack_one, lineStack_two, isBase, okToken, noEOF_append_iff,
        noEOF_cons, noEOF_nil, TOKEN_EOF, emptyToken, bind, Except.bind, pure, Except.pure,
        statePercentBody, hid, hid1, ht]
    · simp [stepOK, nextChar, getState, advance, checkComments, pushState, popState,
        replaceState, replaceToken, getToken, getTokenString, accumulate, send, Inv,
        goodStack_cons, lineStack_one, lineStack_two, isBase, okToken, noEOF_append_iff,
        noEOF_cons, noEOF_nil, TOKEN_EOF, emptyToken, bind, Except.bind, pure, Except.pure,
        statePercentBody, hid, hid1, ht]
  by_cases h2 : c = '#'
  · subst h2
    rcases hb with rfl | rfl
    · simp [stepOK, nextChar, getState, advance, checkComments, pushState, popState,
        replaceState, replaceToken, getToken, getTokenString, accumulate, send, Inv,
        goodStack_cons, lineStack_one, lineStack_two, isBase, okToken, noEOF_append_iff,
        noEOF_cons, noEOF_nil, TOKEN_EOF, emptyToken, bind, Except.bind, pure, Except.pure,
        statePercentBody, hid, hid1, ht]
    · simp [stepOK, nextChar, getState, advance, checkComments, pushState, popState,
        replaceState, replaceToken, getToken, getTokenString, accumulate, send, Inv,
        goodStack_cons, lineStack_one, lineStack_two, isBase, okToken, noEOF_append_iff,
        noEOF_cons, noEOF_nil, TOKEN_EOF, emptyToken, bind, Except.bind, pure, Except.pure,
        statePercentBody, hid, hid1, ht]
  by_cases h5 : c = '\r'
  · subst h5
    rcases hb with rfl | rfl
    · simp [stepOK, nextChar, getState, advance, checkComments, pushState, popState,
        replaceState, replaceToken, getToken, getTokenString, accumulate, send, Inv,
        goodStack_cons, lineStack_one, lineStack_two, isBase, okToken, noEOF_append_iff,
        noEOF_cons, noEOF_nil, TOKEN_EOF, emptyToken, bind, Except.bind, pure, Except.pure,
        statePercentBody, hid, hid1, ht]
    · simp [stepOK, nextChar, getState, advance, checkComments, pushState, popState,
        replaceState, replaceToken, getToken, getTokenString, accumulate, send, Inv,
        goodStack_cons, lineStack_one, lineStack_two, isBase, okToken, noEOF_append_iff,
        noEOF_cons, noEOF_nil, TOKEN_EOF, emptyToken, bind, Except.bind, pure, Except.pure,
        statePercentBody, hid, hid1, ht]
  by_cases h3 : c = '\n'
  · subst h3
    rcases checkCommand_shape STATE_PERCENT id ch v ⟨btag, ⟨id1, ch1, .str v1⟩⟩ [] toks (-1) ut us
      with ⟨y1, h⟩ | ⟨ut1, us1, h⟩ | ⟨f0, rest, _, _, h⟩
    · simp [stepOK, nextChar, getState, advance, checkComments, pushState, popState,
        replaceState, replaceToken, getToken, getTokenString, accumulate, send, Inv,
        goodStack_cons, lineStack_one, lineStack_two, isBase, okToken, noEOF_append_iff,
        noEOF_cons, noEOF_nil, TOKEN_EOF, emptyToken, bind, Except.bind, pure, Except.pure,
        statePercentBody, hid, hid1, ht, h]
    · rcases hb with rfl | rfl
      · simp [stepOK, nextChar, getState, advance, checkComments, pushState, popState,
          replaceState, replaceToken, getToken, getTokenString, accumulate, send, Inv,
          goodStack_cons, lineStack_one, lineStack_two, isBase, okToken, noEOF_append_iff,
          noEOF_cons, noEOF_nil, TOKEN_EOF, emptyToken, bind, Except.bind, pure, Except.pure,
          statePercentBody, hid, hid1, ht, h, TOKEN_INSTRUCTION]
      · simp [stepOK, nextChar, getState, advance, checkComments, pushState, popState,
          replaceState, replaceToken, getToken, getTokenString, accumulate, send, Inv,
          goodStack_cons, lineStack_one, lineStack_two, isBase, okToken, noEOF_append_iff,
          noEOF_cons, noEOF_nil, TOKEN_EOF, emptyToken, bind, Except.bind, pure, Except.pure,
          statePercentBody, hid, hid1, ht, h, TOKEN_INSTRUCTION]
    · simp [stepOK, nextChar, getState, advance, checkComments, pushState, popState,
        replaceState, replaceToken, getToken, getTokenString, accumulate, send, Inv,
        goodStack_cons, lineStack_one, lineStack_two, isBase, okToken, noEOF_append_iff,
        noEOF_cons, noEOF_nil, TOKEN_EOF, emptyToken, bind, Except.bind, pure, Except.pure,
        statePercentBody, hid, hid1, ht, h, TOKEN_INSTRUCTION]
  rcases hb with rfl | rfl
  · simp [stepOK, nextChar, getState, advance, checkComments, pushState, popState, replaceState,
      replaceToken, getToken, getTokenString, accumulate, send, Inv, goodStack_cons,
      lineStack_one, lineStack_two, isBase, okToken, noEOF_append_iff, noEOF_cons, noEOF_nil,
      TOKEN_EOF, emptyToken, bind, Except.bind, pure, Except.pure, statePercentBody, hid, hid1,
      ht, h1, h2, h3, h5]
  · simp [stepOK, nextChar, getState, advance, checkComments, pushState, popState, replaceState,
      replaceToken, getToken, getTokenString, accumulate, send, Inv, goodStack_cons,
      lineStack_one, lineStack_two, isBase, okToken, noEOF_append_iff, noEOF_cons, noEOF_nil,
      TOKEN_EOF, emptyToken, bind, Except.bind, pure, Except.pure, statePercentBody, hid, hid1,
      ht, h1, h2, h3, h5]

theorem okToken_cases (t : Token) (h : okToken t = true) :
    ∃ id ch v, t = ⟨id, ch, .str v⟩ ∧ id ≠ TOKEN_EOF := by
  obtain ⟨id, ch, val⟩ := t
  cases val with
  | str v => exact ⟨id, ch, v, rfl, by simpa [okToken] using h⟩
  | rune q => simp [okToken] at h

theorem lineStack_cases (l : List State) (h : lineStack l = true) :
    (∃ tag id ch v, l = [⟨tag, ⟨id, ch, .str v⟩⟩] ∧ isBase tag = true ∧ id ≠ TOKEN_EOF)
      ∨ (∃ id ch v btag id1 ch1 v1,
          l = [⟨STATE_PERCENT, ⟨id, ch, .str v⟩⟩, ⟨btag, ⟨id1, ch1, .str v1⟩⟩]
            ∧ (btag = STATE_INIT ∨ btag = STATE_YACCRULES) ∧ id ≠ TOKEN_EOF ∧ id1 ≠ TOKEN_EOF) := by
  match l, h with
  | [b], h =>
    obtain ⟨tag, tok⟩ := b
    simp only [lineStack_one, Bool.and_eq_true] at h
    obtain ⟨id, ch, v, rfl, hid⟩ := okToken_cases tok h.2
    exact Or.inl ⟨tag, id, ch, v, rfl, h.1, hid⟩
  | [p, b], h =>
    obtain ⟨ptag, ptok⟩ := p
    obtain ⟨btag, btok⟩ := b
    simp only [lineStack_two, Bool.and_eq_true, Bool.or_eq_true, decide_eq_true_eq] at h
    obtain ⟨⟨⟨h1, h2⟩, h3⟩, h4⟩ := h
    subst h1
    obtain ⟨id, ch, v, rfl, hid⟩ := okToken_cases ptok h2
    obtain ⟨id1, ch1, v1, rfl, hid1⟩ := okToken_cases btok h4
    exact Or.inr ⟨id, ch, v, btag, id1, ch1, v1, rfl, h3, hid, hid1⟩

theorem goodStack_handler (s : State) (r : List State) (h : goodStack (s :: r) = true) :
    isHandlerTag s.current = true := by
  obtain ⟨tag, tok⟩ := s
  cases tag <;> first
    | rfl
    | (exfalso
       rw [goodStack_cons] at h
       rcases lineStack_cases _ h with ⟨tag, id, ch, v, hl, hb, _⟩ | ⟨id, ch, v, btag, id1, ch1, v1, hl, _⟩
       · simp only [List.cons.injEq, State.mk.injEq] at hl
         obtain ⟨⟨rfl, _⟩, _⟩ := hl
         simp [isBase] at hb
       · simp at hl)

/-- Every step from a configuration that satisfies the invariant keeps it, or
fails with a panic. -/
theorem nextChar_inv (c : Char) (y : Yacc) (h : Inv y) : stepOK (nextChar c y) := by
  obtain ⟨st, toks, pos, ut, us⟩ := y
  obtain ⟨hs, ht⟩ := h
  simp only at hs ht
  have line : ∀ l, lineStack l = true → stepOK (nextChar c ⟨l, toks, pos, ut, us⟩) := by
    intro l hl
    rcases lineStack_cases l hl with ⟨tag, id, ch, v, rfl, hb, hid⟩
      | ⟨id, ch, v, btag, id1, ch1, v1, rfl, hb, hid, hid1⟩
    · cases tag <;> simp [isBase] at hb
      · exact inv_init c id ch v toks pos ut us hid ht
      · exact inv_yaccRules c id ch v toks pos ut us hid ht
      · exact inv_action c id ch v toks pos ut us hid ht
      · exact inv_actionBlock c id ch v toks pos ut us hid ht
      · exact inv_actionEnd c id ch v toks pos ut us hid ht
    · exact inv_percent c id ch v btag id1 ch1 v1 toks pos ut us hb hid hid1 ht
  match st, hs with
  | s :: r, hs =>
    obtain ⟨tag, id, ch, val⟩ := s
    cases tag
    case STATE_SLASH =>
      cases val with
      | str v => simp [goodStack_cons] at hs
      | rune q =>
        simp only [goodStack_cons, Bool.and_eq_true, decide_eq_true_eq] at hs
        exact inv_slash c id ch q r toks pos ut us hs.1.1 hs.2 ht
    case STATE_LINECOMMENT =>
      simp only [goodStack_cons, Bool.and_eq_true] at hs
      obtain ⟨id, ch, v, he, hid⟩ := okToken_cases _ hs.1
      cases he
      exact inv_lineComment c id ch v r toks pos ut us hid hs.2 ht
    case STATE_CCOMMENT =>
      simp only [goodStack_cons, Bool.and_eq_true] at hs
      obtain ⟨id, ch, v, he, hid⟩ := okToken_cases _ hs.1
      cases he
      exact inv_cComment c id ch v r toks pos ut us hid hs.2 ht
    case STATE_STAR =>
      simp only [goodStack_cons, Bool.and_eq_true] at hs
      obtain ⟨id, ch, v, he, hid⟩ := okToken_cases _ hs.1
      cases he
      match r, hs.2 with
      | s1 :: r1, h2 =>
        obtain ⟨tag1, tok1⟩ := s1
        simp only [Bool.and_eq_true, decide_eq_true_eq] at h2
        obtain ⟨⟨h3, h4⟩, h5⟩ := h2
        subst h3
        obtain ⟨id1, ch1, v1, rfl, hid1⟩ := okToken_cases tok1 h4
        exact inv_star c id ch v id1 ch1 v1 r1 toks pos ut us hid hid1 h5 ht
    all_goals exact line _ (by simpa [goodStack_cons] using hs)

theorem Inv_initial : Inv initial := by
  constructor
  · decide
  · intro t ht
    cases ht

/-- The invariant holds after any input that is consumed without failure, and
a failure while consuming is a panic. -/
theorem consume_inv (x : List Char) :
    ∀ y, Inv y → match consume x y with
      | .ok y1 => Inv y1
      | .error (e, _) => e = .panic := by
  induction x with
  | nil => intro y h; exact h
  | cons c rest ih =>
    intro y h
    have hc := nextChar_inv c y h
    simp only [consume]
    cases hn : nextChar c y with
    | error e =>
      rw [hn] at hc
      exact hc
    | ok y1 =>
      rw [hn] at hc
      exact ih y1 hc

/-! ## The `yacc` directive and the end of input -/

/-- C3. In every configuration reached from the initial one whose active
frame is a Directive frame holding a line with first field `yacc`, the
Directive Processor (run directly, or by reading the LF that ends the line)
leaves a stack of exactly one frame, tagged GrammarRules, with an empty lexeme. -/
theorem yacc_directive_stack (x : List Char) (y : Yacc) (id : Nat) (ch : Char) (line : String)
    (stk : List State) (rest : List String)
    (hreach : consume x initial = .ok y)
    (hst : y.states = ⟨STATE_PERCENT, ⟨id, ch, .str line⟩⟩ :: stk)
    (hf : Fields line = "yacc" :: rest) :
    (∃ y1, checkCommand y = .ok y1 ∧ y1.states = [⟨STATE_YACCRULES, emptyToken⟩])
      ∧ (∃ y1, nextChar '\n' y = .ok y1 ∧ y1.states = [⟨STATE_YACCRULES, emptyToken⟩]) := by
  have hinv : Inv y := by
    have h := consume_inv x initial Inv_initial
    rw [hreach] at h
    exact h
  obtain ⟨st, toks, pos, ut, us⟩ := y
  simp only at hst
  subst hst
  have hl : lineStack (⟨STATE_PERCENT, ⟨id, ch, .str line⟩⟩ :: stk) = true := by
    simpa [goodStack_cons] using hinv.1
  rcases lineStack_cases _ hl with ⟨tag, id0, ch0, v0, he, hb, _⟩
    | ⟨id0, ch0, v0, btag, id1, ch1, v1, he, _⟩
  · simp only [List.cons.injEq, State.mk.injEq] at he
    obtain ⟨⟨rfl, _⟩, _⟩ := he
    simp [isBase] at hb
  · simp only [List.cons.injEq, State.mk.injEq, true_and] at he
    obtain ⟨_, rfl⟩ := he
    constructor
    · refine ⟨⟨[⟨STATE_YACCRULES, emptyToken⟩],
        toks ++ [⟨TOKEN_INSTRUCTION, nul, .str line⟩], pos, ut, us⟩, ?_, rfl⟩
      simp [checkCommand, getTokenString, getToken, getState, hf, popState, replaceState,
        pushState, send]
    · refine ⟨⟨[⟨STATE_YACCRULES, emptyToken⟩],
        toks ++ [⟨TOKEN_INSTRUCTION, nul, .str line⟩], -1, ut, us⟩, ?_, rfl⟩
      simp [nextChar, getState, advance, statePercentBody, checkComments, checkCommand,
        getTokenString, getToken, hf, popState, replaceState, pushState, send, bind,
        Except.bind, pure, Except.pure]

/-- Witness for C3: the line `%yacc` after a line break. -/
theorem yacc_directive_stack_witness :
    consume "\n%yacc".toList initial
        = .ok ⟨[⟨STATE_PERCENT, ⟨0, 'c', .str "yacc"⟩⟩, ⟨STATE_INIT, emptyToken⟩], [], 4, [],
            ["_INIT"]⟩
      ∧ Fields "yacc" = ["yacc"]
      ∧ ∃ y1, nextChar '\n' ⟨[⟨STATE_PERCENT, ⟨0, 'c', .str "yacc"⟩⟩, ⟨STATE_INIT, emptyToken⟩],
            [], 4, [], ["_INIT"]⟩ = .ok y1
          ∧ y1.states = [⟨STATE_YACCRULES, emptyToken⟩] :=
  ⟨rfl, by decide,
    (yacc_directive_stack "\n%yacc".toList
      ⟨[⟨STATE_PERCENT, ⟨0, 'c', .str "yacc"⟩⟩, ⟨STATE_INIT, emptyToken⟩], [], 4, [], ["_INIT"]⟩
      0 'c' "yacc" [⟨STATE_INIT, emptyToken⟩] [] rfl rfl (by decide)).2⟩

/-- C10. For every input and every bound above its length, the driver loop
of `main` stops; unless a handler panics it stops on the end-of-input condition,
and then the tokens sent are tokens that are not end-of-input tokens followed by
exactly one end-of-input token, the last one. -/
theorem end_of_input (input : List Char) (fuel : Nat) (hfuel : input.length < fuel)
    (hok : (mainLoop fuel input initial).1 ≠ .panic) :
    (mainLoop fuel input initial).1 = .EOF
      ∧ ∃ pre, (mainLoop fuel input initial).2.tokens = pre ++ [⟨TOKEN_EOF, nul, .str "EOF"⟩]
          ∧ ∀ t ∈ pre, t.id ≠ TOKEN_EOF := by
  rw [mainLoop_eq_run fuel input initial hfuel] at hok ⊢
  have h := consume_inv input initial Inv_initial
  simp only [run] at hok ⊢
  cases hc : consume input initial with
  | error e =>
    rw [hc] at h hok
    obtain ⟨e1, y1⟩ := e
    simp only at h hok
    exact absurd h hok
  | ok y1 =>
    rw [hc] at h
    simp only at h
    obtain ⟨hs, ht⟩ := h
    match hst : y1.states, hs with
    | s :: r, hs =>
      have he := atEnd_handler y1 s r hst (goodStack_handler s r hs)
      show (atEnd y1).1 = .EOF ∧ ∃ pre, (atEnd y1).2.tokens
          = pre ++ [⟨TOKEN_EOF, nul, .str "EOF"⟩] ∧ ∀ t ∈ pre, t.id ≠ TOKEN_EOF
      rw [he]
      exact ⟨rfl, y1.tokens, rfl, ht⟩

/-- Witness for C10: the input `%yacc` on its own line followed by a rule. -/
theorem end_of_input_witness :
    "\n%yacc\nab\tlen\n".toList.length < 20
      ∧ (mainLoop 20 "\n%yacc\nab\tlen\n".toList initial).1 ≠ .panic
      ∧ (mainLoop 20 "\n%yacc\nab\tlen\n".toList initial).1 = .EOF
      ∧ ∃ pre, (mainLoop 20 "\n%yacc\nab\tlen\n".toList initial).2.tokens
            = pre ++ [⟨TOKEN_EOF, nul, .str "EOF"⟩]
          ∧ ∀ t ∈ pre, t.id ≠ TOKEN_EOF := by
  have h := end_of_input "\n%yacc\nab\tlen\n".toList 20 (by decide) (by decide)
  exact ⟨by decide, by decide, h.1, h.2⟩

/-! ## Consequences of the invariant: stack depth, tags, progress -/

theorem lineStack_tags (l : List State) (h : lineStack l = true) :
    ∀ s ∈ l, isHandlerTag s.current = true := by
  rcases lineStack_cases l h with ⟨tag, id, ch, v, rfl, hb, _⟩
    | ⟨id, ch, v, btag, id1, ch1, v1, rfl, hb, _⟩
  · intro s hs
    simp only [List.mem_singleton] at hs
    subst hs
    cases tag <;> simp [isBase] at hb <;> rfl
  · intro s hs
    simp only [List.mem_cons, List.mem_singleton, List.not_mem_nil, or_false] at hs
    rcases hs with rfl | rfl
    · rfl
    · rcases hb with rfl | rfl <;> rfl

/-- Under the stack-shape invariant every frame carries the tag of a handler
that reads the cursor. -/
theorem goodStack_tags (l : List State) (h : goodStack l = true) :
    ∀ s ∈ l, isHandlerTag s.current = true := by
  match l, h with
  | s :: r, h =>
    obtain ⟨tag, tok⟩ := s
    have top := goodStack_handler ⟨tag, tok⟩ r h
    intro s1 hs1
    rcases List.mem_cons.1 hs1 with heq | hin
    · rw [heq]; exact top
    · cases tag
      case STATE_SLASH =>
        simp only [goodStack_cons, Bool.and_eq_true] at h
        exact lineStack_tags r h.2 s1 hin
      case STATE_LINECOMMENT =>
        simp only [goodStack_cons, Bool.and_eq_true] at h
        exact lineStack_tags r h.2 s1 hin
      case STATE_CCOMMENT =>
        simp only [goodStack_cons, Bool.and_eq_true] at h
        exact lineStack_tags r h.2 s1 hin
      case STATE_STAR =>
        simp only [goodStack_cons, Bool.and_eq_true] at h
        match r, h.2, hin with
        | s2 :: r1, h2, hin =>
          simp only [Bool.and_eq_true, decide_eq_true_eq] at h2
          rcases List.mem_cons.1 hin with heq2 | hin2
          · rw [heq2, h2.1.1]; rfl
          · exact lineStack_tags r1 h2.2 s1 hin2
      all_goals
        exact lineStack_tags _ (by simpa [goodStack_cons] using h) s1 hs1

theorem reachable_inv (x : List Char) (y : Yacc) (h : consume x initial = .ok y) : Inv y := by
  have hi := consume_inv x initial Inv_initial
  rw [h] at hi
  exact hi

/-- From the initial configuration, with more iterations than runes, the
driver loop stops on the end-of-input condition or on a panic of a handler. -/
theorem mainLoop_stops (input : List Char) (fuel : Nat) (hfuel : input.length < fuel) :
    (mainLoop fuel input initial).1 = .EOF ∨ (mainLoop fuel input initial).1 = .panic := by
  rw [mainLoop_eq_run fuel input initial hfuel]
  have h := consume_inv input initial Inv_initial
  simp only [run]
  cases hc : consume input initial with
  | error e =>
    rw [hc] at h
    obtain ⟨e1, y1⟩ := e
    exact Or.inr h
  | ok y1 =>
    rw [hc] at h
    obtain ⟨hs, _⟩ := h
    match hst : y1.states, hs with
    | s :: r, hs =>
      have he := atEnd_handler y1 s r hst (goodStack_handler s r hs)
      show (atEnd y1).1 = .EOF ∨ (atEnd y1).1 = .panic
      rw [he]
      exact Or.inl rfl

/-- A handler loop never returns more runes than it was given. -/
theorem handlerLoop_length_le (tag : StateTag) (body : Char → Yacc → Res Yacc) :
    ∀ (src : List Char) (y : Yacc) (src1 : List Char) (y1 : Yacc),
      handlerLoop tag body src y = .ok (src1, y1) → src1.length ≤ src.length := by
  intro src
  induction src with
  | nil =>
    intro y src1 y1 h
    simp only [handlerLoop, getNext] at h
    cases hg : getState y with
    | error e => rw [hg] at h; cases h
    | ok s =>
      rw [hg] at h
      by_cases hs : s.current = tag
      · simp [hs] at h
      · simp only [hs, if_false, Except.ok.injEq, Prod.mk.injEq] at h
        rw [← h.1]
  | cons c rest ih =>
    intro y src1 y1 h
    simp only [handlerLoop] at h
    cases hg : getState y with
    | error e => rw [hg] at h; cases h
    | ok s =>
      rw [hg] at h
      by_cases hs : s.current = tag
      · simp only [hs, if_true] at h
        cases hb : body c (advance c y) with
        | error e => rw [hb] at h; cases h
        | ok y2 =>
          rw [hb] at h
          exact Nat.le_succ_of_le (ih y2 src1 y1 h)
      · simp only [hs, if_false, Except.ok.injEq, Prod.mk.injEq] at h
        rw [← h.1]

/-- A handler loop entered with its own tag on top reads at least one rune
before it returns without error. -/
theorem handlerLoop_progress (tag : StateTag) (body : Char → Yacc → Res Yacc)
    (src : List Char) (y : Yacc) (s : State) (stk : List State) (hst : y.states = s :: stk)
    (hs : s.current = tag) (src1 : List Char) (y1 : Yacc)
    (h : handlerLoop tag body src y = .ok (src1, y1)) : src1.length < src.length := by
  cases src with
  | nil => simp [handlerLoop, getState, hst, hs, getNext] at h
  | cons c rest =>
    simp only [handlerLoop, getState, hst, hs, if_true] at h
    cases hb : body c (advance c y) with
    | error e => rw [hb] at h; cases h
    | ok y2 =>
      rw [hb] at h
      exact Nat.lt_succ_of_le (handlerLoop_length_le tag body rest y2 src1 y1 h)

/-- C17. In every configuration reached from the initial one no frame is
tagged Finished, Error (nor Stack or LexRules), so `finished()` is false; for
every input the driver loop stops only on the end-of-input condition or on a
panic of a handler, never because `finished()` is true. -/
theorem terminal_states_unreachable (x : List Char) (y : Yacc)
    (hreach : consume x initial = .ok y) :
    (∀ s ∈ y.states, s.current ≠ STATE_FINISHED ∧ s.current ≠ STATE_ERROR
        ∧ s.current ≠ STATE_STACK ∧ s.current ≠ STATE_LEXRULES)
      ∧ finished y = .ok false
      ∧ ∀ (input : List Char) (fuel : Nat), input.length < fuel →
          ((mainLoop fuel input initial).1 = .EOF ∨ (mainLoop fuel input initial).1 = .panic)
            ∧ (mainLoop fuel input initial).1 ≠ .finished := by
  have hinv := reachable_inv x y hreach
  have htags := goodStack_tags y.states hinv.1
  refine ⟨?_, ?_, ?_⟩
  · intro s hs
    have h := htags s hs
    obtain ⟨tag, tok⟩ := s
    cases tag <;> simp [isHandlerTag] at h <;> simp
  · match hst : y.states, hinv.1 with
    | s :: r, hg =>
      have h := goodStack_handler s r hg
      obtain ⟨tag, tok⟩ := s
      cases tag <;> simp [isHandlerTag] at h <;> simp [finished, getState, hst]
  · intro input fuel hfuel
    have h := mainLoop_stops input fuel hfuel
    refine ⟨h, ?_⟩
    rcases h with h | h <;> rw [h] <;> simp

/-- Witness for C17: the configuration after a pattern and a tab. -/
theorem terminal_states_unreachable_witness :
    consume "\n%yacc\nab\t".toList initial
        = .ok ⟨[⟨STATE_ACTION, emptyToken⟩],
            [⟨TOKEN_INSTRUCTION, nul, .str "yacc"⟩, ⟨TOKEN_REGEXP, '\t', .str "ab"⟩], 2, [],
            ["_INIT"]⟩
      ∧ finished ⟨[⟨STATE_ACTION, emptyToken⟩],
            [⟨TOKEN_INSTRUCTION, nul, .str "yacc"⟩, ⟨TOKEN_REGEXP, '\t', .str "ab"⟩], 2, [],
            ["_INIT"]⟩ = .ok false :=
  ⟨rfl, (terminal_states_unreachable "\n%yacc\nab\t".toList _ rfl).2.1⟩

/-- C19. From every configuration reached from the initial one, a call of
`nextState` that returns without error has read at least one rune; and for every
input of `n` runes the driver loop stops within `n + 1` iterations (it does not
run out of them), on end of input or on a panic. -/
theorem nextState_progress (x : List Char) (y : Yacc) (hreach : consume x initial = .ok y) :
    (∀ src src1 y1, nextState src y = .ok (src1, y1) → src1.length < src.length)
      ∧ ∀ input : List Char,
          (mainLoop (input.length + 1) input initial).1 ≠ .outOfFuel
            ∧ ((mainLoop (input.length + 1) input initial).1 = .EOF
                ∨ (mainLoop (input.length + 1) input initial).1 = .panic) := by
  have hinv := reachable_inv x y hreach
  constructor
  · intro src src1 y1 h
    match hst : y.states, hinv.1 with
    | s :: r, hg =>
      have hh := goodStack_handler s r hg
      rw [nextState_handler src y s r hst hh] at h
      exact handlerLoop_progress s.current (bodyOf s.current) src y s r hst rfl src1 y1 h
  · intro input
    have h := mainLoop_stops input (input.length + 1) (Nat.lt_succ_self _)
    refine ⟨?_, h⟩
    rcases h with h | h <;> rw [h] <;> simp

/-- Witness for C19: a call of `nextState` in the Preamble state that stops at
the start of a directive. -/
theorem nextState_progress_witness :
    consume "a\n".toList initial
        = .ok ⟨[⟨STATE_INIT, ⟨0, 'a', .str "a"⟩⟩], [⟨0, 'a', .str "a"⟩], -1, [], ["_INIT"]⟩
      ∧ nextState "%yacc".toList
          ⟨[⟨STATE_INIT, ⟨0, 'a', .str "a"⟩⟩], [⟨0, 'a', .str "a"⟩], -1, [], ["_INIT"]⟩
        = .ok ("yacc".toList,
            ⟨[⟨STATE_PERCENT, emptyToken⟩, ⟨STATE_INIT, ⟨0, 'a', .str "a"⟩⟩],
              [⟨0, 'a', .str "a"⟩], 0, [], ["_INIT"]⟩)
      ∧ "yacc".toList.length < "%yacc".toList.length :=
  ⟨rfl, rfl, (nextState_progress "a\n".toList _ rfl).1 "%yacc".toList "yacc".toList _ rfl⟩

/-! ## Defects of the code: first line, slash fallback, directive fields, line ends -/

/-- C12 (the code at the failing input). The column counter starts at 0 and
`getNext` advances it before the test `position == 0`, so a `%` that opens the
input is read at column 1: the Preamble state sends it as a raw token and pushes
no Directive frame, and the whole line `%yacc` is sent rune by rune.  After a line
break the same `%` is read at column 0 and pushes the Directive frame. -/
theorem first_line_percent_is_raw :
    nextChar '%' initial
        = .ok ⟨[⟨STATE_INIT, ⟨0, '%', .str "%"⟩⟩], [⟨0, '%', .str "%"⟩], 1, [], ["_INIT"]⟩
      ∧ (main "%yacc\n".toList).2.tokens
          = [⟨0, '%', .str "%"⟩, ⟨0, 'y', .str "y"⟩, ⟨0, 'a', .str "a"⟩, ⟨0, 'c', .str "c"⟩,
              ⟨0, 'c', .str "c"⟩, ⟨TOKEN_EOF, nul, .str "EOF"⟩]
      ∧ consume "\n%".toList initial
          = .ok ⟨[⟨STATE_PERCENT, emptyToken⟩, ⟨STATE_INIT, emptyToken⟩], [], 0, [], ["_INIT"]⟩ :=
  ⟨rfl, by decide, rfl⟩

/-- The slash fallback always fails: the frame pushed by `checkComments` for `/`
holds a rune, and the fallback branch of `stateSlash` asserts a string. -/
theorem consume_slash_other_panics (tag : StateTag) (htag : runsInterceptor tag = true)
    (f : Token) (r : List State) (toks : List Token) (pos : Int) (ut us : List String) (c : Char)
    (h1 : c ≠ '/') (h2 : c ≠ '*') (h3 : isBlank c = false) :
    ∃ y1, consume ['/', c] ⟨⟨tag, f⟩ :: r, toks, pos, ut, us⟩ = .error (.panic, y1)
      ∧ y1.states = ⟨STATE_SLASH, ⟨47, '/', .rune '/'⟩⟩ :: ⟨tag, f⟩ :: r
      ∧ y1.tokens = toks ++ [⟨47, '/', .rune '/'⟩] := by
  simp only [consume, nextChar_slash_intercept tag htag]
  by_cases hn : c = '\n'
  · subst hn
    refine ⟨⟨⟨STATE_SLASH, ⟨47, '/', .rune '/'⟩⟩ :: ⟨tag, f⟩ :: r,
      toks ++ [⟨47, '/', .rune '/'⟩], pos + 1, ut, us⟩, ?_, rfl, rfl⟩
    simp [nextChar, getState, advance, stateSlashBody, isBlank, getToken, getTokenString, send,
      bind, Except.bind]
  · refine ⟨⟨⟨STATE_SLASH, ⟨47, '/', .rune '/'⟩⟩ :: ⟨tag, f⟩ :: r,
      toks ++ [⟨47, '/', .rune '/'⟩], pos + 1 + 1, ut, us⟩, ?_, rfl, rfl⟩
    simp [nextChar, getState, advance, stateSlashBody, h1, h2, h3, hn, getToken,
      getTokenString, send, bind, Except.bind]

/-- C13 (the code at the failing input). In the Action state with pending
lexeme `le`, the input `/n` does not complete: the `/` token is sent and the step
on `n` panics with the slash frame still on the stack, the lexeme of the
interrupted frame untouched.  The same happens from the initial configuration. -/
theorem slash_fallback_panics :
    consume "/n".toList ⟨[⟨STATE_ACTION, ⟨0, 'e', .str "le"⟩⟩], [], 5, [], ["_INIT"]⟩
        = .error (.panic,
            ⟨[⟨STATE_SLASH, ⟨47, '/', .rune '/'⟩⟩, ⟨STATE_ACTION, ⟨0, 'e', .str "le"⟩⟩],
              [⟨47, '/', .rune '/'⟩], 7, [], ["_INIT"]⟩)
      ∧ (main "a/b".toList).1 = .panic
      ∧ ∃ y1, consume ['/', 'n'] initial = .error (.panic, y1) :=
  ⟨rfl, by decide,
    (consume_slash_other_panics STATE_INIT rfl emptyToken [] [] 0 [] ["_INIT"] 'n'
      (by decide) (by decide) (by decide)).imp fun _ h => h.1⟩

/-- C15 (the code at the failing input). The directive line `alias x` (one
further field) makes `checkCommand` fail with an index out of range after the
instruction-line token is sent; the Directive frame is not popped.  With two
further fields the line is acknowledged. -/
theorem alias_short_line_panics :
    checkCommand ⟨[⟨STATE_PERCENT, ⟨0, 'x', .str "alias x"⟩⟩, ⟨STATE_INIT, emptyToken⟩], [], -1,
          [], ["_INIT"]⟩
        = .error (.panic,
            ⟨[⟨STATE_PERCENT, ⟨0, 'x', .str "alias x"⟩⟩, ⟨STATE_INIT, emptyToken⟩],
              [⟨TOKEN_INSTRUCTION, nul, .str "alias x"⟩], -1, [], ["_INIT"]⟩)
      ∧ (main "\n%alias x\n".toList).1 = .panic
      ∧ (main "\n%alias\n".toList).1 = .panic
      ∧ checkCommand ⟨[⟨STATE_PERCENT, ⟨0, 'y', .str "alias x y"⟩⟩, ⟨STATE_INIT, emptyToken⟩],
            [], -1, [], ["_INIT"]⟩
          = .ok ⟨[⟨STATE_INIT, emptyToken⟩], [⟨TOKEN_INSTRUCTION, nul, .str "alias x y"⟩], -1, [],
              ["_INIT"]⟩ :=
  ⟨rfl, by decide, by decide, rfl⟩

/-- C16 (the code at the failing inputs). The rule state tests the column
counter, not the lexeme.  After `%yacc`, the one-rune pattern `a` is read at column
0, so the LF that ends it takes the blank-line branch: no rule-pattern token is
sent and the lexeme `a` is discarded.  After an action block the LF read in
ActionEnd does not reset the column counter, so the LF of a following blank line
is read at column 9 with an empty lexeme and sends a rule-pattern token with an
empty payload. -/
theorem rule_line_end_tests_column :
    consume "\n%yacc\na".toList initial
        = .ok ⟨[⟨STATE_YACCRULES, ⟨0, 'a', .str "a"⟩⟩], [⟨TOKEN_INSTRUCTION, nul, .str "yacc"⟩],
            0, [], ["_INIT"]⟩
      ∧ nextChar '\n' ⟨[⟨STATE_YACCRULES, ⟨0, 'a', .str "a"⟩⟩],
            [⟨TOKEN_INSTRUCTION, nul, .str "yacc"⟩], 0, [], ["_INIT"]⟩
          = .ok ⟨[⟨STATE_YACCRULES, emptyToken⟩], [⟨TOKEN_INSTRUCTION, nul, .str "yacc"⟩], -1, [],
              ["_INIT"]⟩
      ∧ consume "\n%yacc\nab\t\x7b len \x7d\n".toList initial
          = .ok ⟨[⟨STATE_YACCRULES, emptyToken⟩],
              [⟨TOKEN_INSTRUCTION, nul, .str "yacc"⟩, ⟨TOKEN_REGEXP, '\t', .str "ab"⟩,
                ⟨TOKEN_BLOCKSTART, '{', .str "\x7b"⟩, ⟨TOKEN_LEN, nul, .str "len"⟩,
                ⟨TOKEN_BLOCKEND, '}', .str "\x7d"⟩], 9, [], ["_INIT"]⟩
      ∧ nextChar '\n' ⟨[⟨STATE_YACCRULES, emptyToken⟩],
            [⟨TOKEN_INSTRUCTION, nul, .str "yacc"⟩, ⟨TOKEN_REGEXP, '\t', .str "ab"⟩,
              ⟨TOKEN_BLOCKSTART, '{', .str "\x7b"⟩, ⟨TOKEN_LEN, nul, .str "len"⟩,
              ⟨TOKEN_BLOCKEND, '}', .str "\x7d"⟩], 9, [], ["_INIT"]⟩
          = .ok ⟨[⟨STATE_ACTION, emptyToken⟩],
              [⟨TOKEN_INSTRUCTION, nul, .str "yacc"⟩, ⟨TOKEN_REGEXP, '\t', .str "ab"⟩,
                ⟨TOKEN_BLOCKSTART, '{', .str "\x7b"⟩, ⟨TOKEN_LEN, nul, .str "len"⟩,
                ⟨TOKEN_BLOCKEND, '}', .str "\x7d"⟩, ⟨TOKEN_REGEXP, '\n', .str ""⟩], 9, [],
              ["_INIT"]⟩ :=
  ⟨rfl, rfl, rfl, rfl⟩

/-- C18 (the code at the failing inputs). A `%` at column 0 followed at once
by LF, or by blanks and LF, leaves a lexeme without fields: `checkCommand` sends
the instruction-line token and fails on `fields[0]` with an index out of range.
The line `alias x` fails on `fields[2]`. -/
theorem directive_fields_out_of_range :
    consume "\n%".toList initial
        = .ok ⟨[⟨STATE_PERCENT, emptyToken⟩, ⟨STATE_INIT, emptyToken⟩], [], 0, [], ["_INIT"]⟩
      ∧ Fields "" = []
      ∧ nextChar '\n' ⟨[⟨STATE_PERCENT, emptyToken⟩, ⟨STATE_INIT, emptyToken⟩], [], 0, [],
            ["_INIT"]⟩
          = .error (.panic,
              ⟨[⟨STATE_PERCENT, emptyToken⟩, ⟨STATE_INIT, emptyToken⟩],
                [⟨TOKEN_INSTRUCTION, nul, .str ""⟩], -1, [], ["_INIT"]⟩)
      ∧ (main "\n%\n".toList).1 = .panic
      ∧ Fields "  " = []
      ∧ (main "\n%  \n".toList).1 = .panic
      ∧ (main "\n%alias x\n".toList).1 = .panic :=
  ⟨rfl, by decide, rfl, by decide, by decide, by decide, by decide⟩

/-! ## The error category -/

theorem keyword_error_iff (w : String) (k : Nat) (h : lookupKeyword w keywords = some k) :
    k = TOKEN_ERROR ↔ w = "error" := by
  have hk := (lookupKeyword_some_iff w k).1 h
  simp only [keywords, List.mem_cons, Prod.mk.injEq, List.mem_singleton, List.not_mem_nil,
    or_false] at hk
  rcases hk with ⟨rfl, rfl⟩ | ⟨rfl, rfl⟩ | ⟨rfl, rfl⟩ | ⟨rfl, rfl⟩ | ⟨rfl, rfl⟩ | ⟨rfl, rfl⟩ <;>
    decide

theorem ERR_ne_error (w : String) : "ERR: " ++ w ≠ "error" := by
  intro h
  have hd := congrArg String.data h
  have e1 : "ERR: ".data = ['E', 'R', 'R', ':', ' '] := rfl
  have e2 : "error".data = ['e', 'r', 'r', 'o', 'r'] := rfl
  rw [String.data_append, e1, e2] at hd
  have h0 := congrArg List.head? hd
  simp at h0

/-- C20 as stated fails: the reserved word `error` is classified with the
error category although it matches a reserved keyword, and an unclassifiable
identifier gets the same category. -/
theorem error_keyword_same_category :
    checkKeyword ⟨[⟨STATE_ACTION, ⟨0, 'r', .str "error"⟩⟩], [], 5, [], ["_INIT"]⟩
        = .ok ⟨[⟨STATE_ACTION, emptyToken⟩], [⟨TOKEN_ERROR, nul, .str "error"⟩], 5, [], ["_INIT"]⟩
      ∧ ("error", TOKEN_ERROR) ∈ keywords
      ∧ checkKeyword ⟨[⟨STATE_ACTION, ⟨0, 'o', .str "foo"⟩⟩], [], 5, [], ["_INIT"]⟩
          = .ok ⟨[⟨STATE_ACTION, emptyToken⟩], [⟨TOKEN_ERROR, nul, .str "ERR: foo"⟩], 5, [],
              ["_INIT"]⟩
      ∧ (∀ k, ("foo", k) ∉ keywords) :=
  ⟨rfl, by decide, rfl, (lookupKeyword_none_iff "foo").1 (by decide)⟩

/-- C20, amended. For a non-empty lexeme `w` the classifier sends one token;
it has the error category exactly when `w` is the reserved word `error` or `w`
matches no reserved keyword, no declared token and no declared state.  The two
cases share the category and differ by payload: `error` itself for the reserved
word, `ERR: ` followed by `w` (never the text `error`) for an unclassifiable word. -/
theorem error_category_iff (y : Yacc) (cur : StateTag) (id : Nat) (ch : Char) (w : String)
    (rest : List State) (hst : y.states = ⟨cur, ⟨id, ch, .str w⟩⟩ :: rest) (hw : w ≠ "") :
    ∃ t y1, checkKeyword y = .ok y1 ∧ y1.tokens = y.tokens ++ [t]
      ∧ (t.id = TOKEN_ERROR ↔
          (w = "error" ∨ ((∀ k, (w, k) ∉ keywords) ∧ w ∉ y.userTokens ∧ w ∉ y.userStates)))
      ∧ (w = "error" → t.value = .str "error")
      ∧ (((∀ k, (w, k) ∉ keywords) ∧ w ∉ y.userTokens ∧ w ∉ y.userStates) →
          t.value = .str ("ERR: " ++ w) ∧ t.value ≠ .str "error") := by
  obtain ⟨st, toks, pos, ut, us⟩ := y
  simp only at hst
  subst hst
  have hlen : w.length > 0 := (length_pos_iff_ne_empty w).2 hw
  rw [checkKeyword_eq]
  simp only [classified, hlen, if_true]
  have herr : ("error", TOKEN_ERROR) ∈ keywords := by decide
  cases hl : lookupKeyword w keywords with
  | some k =>
    have hk := (lookupKeyword_some_iff w k).1 hl
    refine ⟨⟨k, nul, .str w⟩, _, rfl, rfl, ?_, ?_, ?_⟩
    · rw [keyword_error_iff w k hl]
      constructor
      · exact Or.inl
      · rintro (h | ⟨h, _⟩)
        · exact h
        · exact absurd hk (h k)
    · intro h; rw [h]
    · rintro ⟨h, _⟩; exact absurd hk (h k)
  | none =>
    have hnone := (lookupKeyword_none_iff w).1 hl
    have hne : w ≠ "error" := fun h => hnone TOKEN_ERROR (by rw [h]; exact herr)
    by_cases h1 : w ∈ ut
    · refine ⟨⟨USER_TOKEN, nul, .str w⟩,
          ⟨⟨cur, emptyToken⟩ :: rest, toks ++ [⟨USER_TOKEN, nul, .str w⟩], pos, ut, us⟩,
          by simp [h1], rfl, ?_, ?_, ?_⟩
      · constructor
        · intro h; exact absurd h (show (USER_TOKEN : Nat) ≠ TOKEN_ERROR by decide)
        · rintro (h | ⟨_, h, _⟩)
          · exact absurd h hne
          · exact absurd h1 h
      · intro h; exact absurd h hne
      · rintro ⟨_, h, _⟩; exact absurd h1 h
    · by_cases h2 : w ∈ us
      · refine ⟨⟨USER_STATE, nul, .str w⟩,
          ⟨⟨cur, emptyToken⟩ :: rest, toks ++ [⟨USER_STATE, nul, .str w⟩], pos, ut, us⟩,
          by simp [h1, h2], rfl, ?_, ?_, ?_⟩
        · constructor
          · intro h; exact absurd h (show (USER_STATE : Nat) ≠ TOKEN_ERROR by decide)
          · rintro (h | ⟨_, _, h⟩)
            · exact absurd h hne
            · exact absurd h2 h
        · intro h; exact absurd h hne
        · rintro ⟨_, _, h⟩; exact absurd h2 h
      · refine ⟨⟨TOKEN_ERROR, nul, .str ("ERR: " ++ w)⟩,
          ⟨⟨cur, emptyToken⟩ :: rest, toks ++ [⟨TOKEN_ERROR, nul, .str ("ERR: " ++ w)⟩], pos,
            ut, us⟩, by simp [h1, h2], rfl, ?_, ?_, ?_⟩
        · exact ⟨fun _ => Or.inr ⟨hnone, h1, h2⟩, fun _ => rfl⟩
        · intro h; exact absurd h hne
        · intro _
          refine ⟨rfl, ?_⟩
          intro h
          exact ERR_ne_error w (Value.str.inj h)

/-- Witness for C20 (amended): the reserved word `error` on an Action frame. -/
theorem error_category_iff_witness :
    ("error" : String) ≠ ""
      ∧ ∃ t y1, checkKeyword ⟨[⟨STATE_ACTION, ⟨0, 'r', .str "error"⟩⟩], [], 5, [], ["_INIT"]⟩
            = .ok y1
          ∧ y1.tokens = [] ++ [t] ∧ t.id = TOKEN_ERROR ∧ t.value = .str "error" := by
  obtain ⟨t, y1, h1, h2, h3, h4, _⟩ :=
    error_category_iff ⟨[⟨STATE_ACTION, ⟨0, 'r', .str "error"⟩⟩], [], 5, [], ["_INIT"]⟩
      STATE_ACTION 0 'r' "error" [] rfl (by decide)
  exact ⟨by decide, t, y1, h1, h2, h3.2 (Or.inl rfl), h4 rfl⟩

/-! ## No way back to the preamble -/

theorem noInit_cons (s : State) (r : List State) :
    noInit (s :: r) = (decide (s.current ≠ STATE_INIT) && noInit r) := rfl

theorem noInit_nil : noInit [] = true := rfl

theorem noInit_yaccRules (c : Char) (id : Nat) (ch : Char) (v : String)
    (toks : List Token) (pos : Int) (ut us : List String) :
    stepNoInit (nextChar c ⟨[⟨STATE_YACCRULES, ⟨id, ch, .str v⟩⟩], toks, pos, ut, us⟩) := by
  by_cases h1 : c = '/'
  · subst h1
    simp [stepNoInit, nextChar, getState, advance, checkComments, pushState, popState,
      replaceState, replaceToken, getToken, getTokenString, accumulate, send, noInit_cons,
      noInit_nil, emptyToken, bind, Except.bind, pure, Except.pure, stateyaccRulesBody, isBlank]
  by_cases h2 : c = '#'
  · subst h2
    simp [stepNoInit, nextChar, getState, advance, checkComments, pushState, popState,
      replaceState, replaceToken, getToken, getTokenString, accumulate, send, noInit_cons,
      noInit_nil, emptyToken, bind, Except.bind, pure, Except.pure, stateyaccRulesBody, h1,
      isBlank]
  by_cases h3 : c = '\n'
  · subst h3
    by_cases hp : 0 < pos
    · simp [stepNoInit, nextChar, getState, advance, checkComments, pushState, popState,
        replaceState, replaceToken, getToken, getTokenString, accumulate, send, noInit_cons,
        noInit_nil, emptyToken, bind, Except.bind, pure, Except.pure, stateyaccRulesBody, h1, h2,
        isBlank, hp]
    · simp [stepNoInit, nextChar, getState, advance, checkComments, pushState, popState,
        replaceState, replaceToken, getToken, getTokenString, accumulate, send, noInit_cons,
        noInit_nil, emptyToken, bind, Except.bind, pure, Except.pure, stateyaccRulesBody, h1, h2,
        isBlank, hp]
  by_cases h4 : c = '%' ∧ pos + 1 = 0
  · simp [stepNoInit, nextChar, getState, advance, checkComments, pushState, popState,
      replaceState, replaceToken, getToken, getTokenString, accumulate, send, noInit_cons,
      noInit_nil, emptyToken, bind, Except.bind, pure, Except.pure, stateyaccRulesBody, h1, h2,
      h3, h4, isBlank]
  by_cases h5 : c = '\t' ∧ pos + 1 > 0
  · simp [stepNoInit, nextChar, getState, advance, checkComments, pushState, popState,
      replaceState, replaceToken, getToken, getTokenString, accumulate, send, noInit_cons,
      noInit_nil, emptyToken, bind, Except.bind, pure, Except.pure, stateyaccRulesBody, h1, h2,
      h3, h4, h5, isBlank]
  by_cases h6 : c = '\r'
  · subst h6
    simp [stepNoInit, nextChar, getState, advance, checkComments, pushState, popState,
      replaceState, replaceToken, getToken, getTokenString, accumulate, send, noInit_cons,
      noInit_nil, emptyToken, bind, Except.bind, pure, Except.pure, stateyaccRulesBody, h1, h2,
      h3, h4, h5, isBlank]
  simp [stepNoInit, nextChar, getState, advance, checkComments, pushState, popState,
    replaceState, replaceToken, getToken, getTokenString, accumulate, send, noInit_cons,
    noInit_nil, emptyToken, bind, Except.bind, pure, Except.pure, stateyaccRulesBody, h1, h2, h3,
    h4, h5, h6]

theorem noInit_actionEnd (c : Char) (id : Nat) (ch : Char) (v : String)
    (toks : List Token) (pos : Int) (ut us : List String) :
    stepNoInit (nextChar c ⟨[⟨STATE_ACTIONEND, ⟨id, ch, .str v⟩⟩], toks, pos, ut, us⟩) := by
  by_cases h1 : c = '/'
  · subst h1
    simp [stepNoInit, nextChar, getState, advance, checkComments, pushState, popState,
      replaceState, replaceToken, getToken, getTokenString, accumulate, send, noInit_cons,
      noInit_nil, emptyToken, bind, Except.bind, pure, Except.pure, stateActionEndBody, isBlank]
  by_cases h2 : c = '#'
  · subst h2
    simp [stepNoInit, nextChar, getState, advance, checkComments, pushState, popState,
      replaceState, replaceToken, getToken, getTokenString, accumulate, send, noInit_cons,
      noInit_nil, emptyToken, bind, Except.bind, pure, Except.pure, stateActionEndBody, h1,
      isBlank]
  by_cases h3 : c = '\n'
  · subst h3
    simp [stepNoInit, nextChar, getState, advance, checkComments, pushState, popState,
      replaceState, replaceToken, getToken, getTokenString, accumulate, send, noInit_cons,
      noInit_nil, emptyToken, bind, Except.bind, pure, Except.pure, stateActionEndBody, h1, h2,
      isBlank]
  by_cases h5 : c = '\r'
  · subst h5
    simp [stepNoInit, nextChar, getState, advance, checkComments, pushState, popState,
      replaceState, replaceToken, getToken, getTokenString, accumulate, send, noInit_cons,
      noInit_nil, emptyToken, bind, Except.bind, pure, Except.pure, stateActionEndBody, h1, h2,
      h3, isBlank]
  by_cases h6 : isBlank c = true
  · simp [stepNoInit, nextChar, getState, advance, checkComments, pushState, popState,
      replaceState, replaceToken, getToken, getTokenString, accumulate, send, noInit_cons,
      noInit_nil, emptyToken, bind, Except.bind, pure, Except.pure, stateActionEndBody, h1, h2,
      h3, h5, h6]
  simp [stepNoInit, nextChar, getState, advance, checkComments, pushState, popState,
    replaceState, replaceToken, getToken, getTokenString, accumulate, send, noInit_cons,
    noInit_nil, emptyToken, bind, Except.bind, pure, Except.pure, stateActionEndBody, h1, h2, h3,
    h5, h6]

theorem noInit_action (c : Char) (id : Nat) (ch : Char) (v : String)
    (toks : List Token) (pos : Int) (ut us : List String) :
    stepNoInit (nextChar c ⟨[⟨STATE_ACTION, ⟨id, ch, .str v⟩⟩], toks, pos, ut, us⟩) := by
  by_cases h1 : c = '/'
  · subst h1
    simp [stepNoInit, nextChar, getState, advance, checkComments, pushState, popState,
      replaceState, replaceToken, getToken, getTokenString, accumulate, send, noInit_cons,
      noInit_nil, emptyToken, bind, Except.bind, pure, Except.pure, stateActionBody,
      checkKeyword_eq, isBlank]
  by_cases h2 : c = '#'
  · subst h2
    simp [stepNoInit, nextChar, getState, advance, checkComments, pushState, popState,
      replaceState, replaceToken, getToken, getTokenString, accumulate, send, noInit_cons,
      noInit_nil, emptyToken, bind, Except.bind, pure, Except.pure, stateActionBody,
      checkKeyword_eq, h1, isBlank]
  by_cases h3 : c = '\n'
  · subst h3
    by_cases hp : v = ""
    · simp [stepNoInit, nextChar, getState, advance, checkComments, pushState, popState,
        replaceState, replaceToken, getToken, getTokenString, accumulate, send, noInit_cons,
        noInit_nil, emptyToken, bind, Except.bind, pure, Except.pure, stateActionBody,
        checkKeyword_eq, h1, h2, isBlank, hp]
    · simp [stepNoInit, nextChar, getState, advance, checkComments, pushState, popState,
        replaceState, replaceToken, getToken, getTokenString, accumulate, send, noInit_cons,
        noInit_nil, emptyToken, bind, Except.bind, pure, Except.pure, stateActionBody,
        checkKeyword_eq, h1, h2, isBlank, hp]
  by_cases h6 : isBlank c = true
  · simp [stepNoInit, nextChar, getState, advance, checkComments, pushState, popState,
      replaceState, replaceToken, getToken, getTokenString, accumulate, send, noInit_cons,
      noInit_nil, emptyToken, bind, Except.bind, pure, Except.pure, stateActionBody,
      checkKeyword_eq, h1, h2, h3, h6]
  by_cases h5 : c = '\r'
  · subst h5
    simp [stepNoInit, nextChar, getState, advance, checkComments, pushState, popState,
      replaceState, replaceToken, getToken, getTokenString, accumulate, send, noInit_cons,
      noInit_nil, emptyToken, bind, Except.bind, pure, Except.pure, stateActionBody,
      checkKeyword_eq, h1, h2, h3, h6, isBlank]
  by_cases h4 : c = '\x7b' ∧ pos + 1 > 0
  · simp [stepNoInit, nextChar, getState, advance, checkComments, pushState, popState,
      replaceState, replaceToken, getToken, getTokenString, accumulate, send, noInit_cons,
      noInit_nil, emptyToken, bind, Except.bind, pure, Except.pure, stateActionBody,
      checkKeyword_eq, h1, h2, h3, h6, h5, h4, isBlank]
  simp [stepNoInit, nextChar, getState, advance, checkComments, pushState, popState,
    replaceState, replaceToken, getToken, getTokenString, accumulate, send, noInit_cons,
    noInit_nil, emptyToken, bind, Except.bind, pure, Except.pure, stateActionBody,
    checkKeyword_eq, h1, h2, h3, h6, h5, h4]

theorem noInit_actionBlock (c : Char) (id : Nat) (ch : Char) (v : String)
    (toks : List Token) (pos : Int) (ut us : List String) :
    stepNoInit (nextChar c ⟨[⟨STATE_ACTIONBLOCK, ⟨id, ch, .str v⟩⟩], toks, pos, ut, us⟩) := by
  by_cases h1 : c = '/'
  · subst h1
    simp [stepNoInit, nextChar, getState, advance, checkComments, pushState, popState,
      replaceState, replaceToken, getToken, getTokenString, accumulate, send, noInit_cons,
      noInit_nil, emptyToken, bind, Except.bind, pure, Except.pure, stateActionBlockBody,
      checkKeyword_eq, isBlank]
  by_cases h2 : c = '#'
  · subst h2
    simp [stepNoInit, nextChar, getState, advance, checkComments, pushState, popState,
      replaceState, replaceToken, getToken, getTokenString, accumulate, send, noInit_cons,
      noInit_nil, emptyToken, bind, Except.bind, pure, Except.pure, stateActionBlockBody,
      checkKeyword_eq, h1, isBlank]
  by_cases h3 : c = '\n'
  · subst h3
    simp [stepNoInit, nextChar, getState, advance, checkComments, pushState, popState,
      replaceState, replaceToken, getToken, getTokenString, accumulate, send, noInit_cons,
      noInit_nil, emptyToken, bind, Except.bind, pure, Except.pure, stateActionBlockBody,
      checkKeyword_eq, h1, h2, isBlank]
  by_cases h6 : isBlank c = true
  · simp [stepNoInit, nextChar, getState, advance, checkComments, pushState, popState,
      replaceState, replaceToken, getToken, getTokenString, accumulate, send, noInit_cons,
      noInit_nil, emptyToken, bind, Except.bind, pure, Except.pure, stateActionBlockBody,
      checkKeyword_eq, h1, h2, h3, h6]
  by_cases h5 : c = '\r'
  · subst h5
    simp [stepNoInit, nextChar, getState, advance, checkComments, pushState, popState,
      replaceState, replaceToken, getToken, getTokenString, accumulate, send, noInit_cons,
      noInit_nil, emptyToken, bind, Except.bind, pure, Except.pure, stateActionBlockBody,
      checkKeyword_eq, h1, h2, h3, h6, isBlank]
  by_cases h4 : c = '\x7d'
  · simp [stepNoInit, nextChar, getState, advance, checkComments, pushState, popState,
      replaceState, replaceToken, getToken, getTokenString, accumulate, send, noInit_cons,
      noInit_nil, emptyToken, bind, Except.bind, pure, Except.pure, stateActionBlockBody,
      checkKeyword_eq, h1, h2, h3, h6, h5, h4, isBlank]
  simp [stepNoInit, nextChar, getState, advance, checkComments, pushState, popState,
    replaceState, replaceToken, getToken, getTokenString, accumulate, send, noInit_cons,
    noInit_nil, emptyToken, bind, Except.bind, pure, Except.pure, stateActionBlockBody,
    checkKeyword_eq, h1, h2, h3, h6, h5, h4]

theorem noInit_lineComment (c : Char) (id : Nat) (ch : Char) (v : String) (r : List State)
    (toks : List Token) (pos : Int) (ut us : List String)
    (hr : noInit r = true) :
    stepNoInit (nextChar c ⟨⟨STATE_LINECOMMENT, ⟨id, ch, .str v⟩⟩ :: r, toks, pos, ut, us⟩) := by
  by_cases h5 : c = '\r'
  · subst h5
    simp [stepNoInit, nextChar, getState, advance, checkComments, pushState, popState,
      replaceState, replaceToken, getToken, getTokenString, accumulate, send, noInit_cons,
      noInit_nil, emptyToken, bind, Except.bind, pure, Except.pure, stateLineCommentBody, hr,
      isBlank]
  by_cases h3 : c = '\n'
  · subst h3
    simp [stepNoInit, nextChar, getState, advance, checkComments, pushState, popState,
      replaceState, replaceToken, getToken, getTokenString, accumulate, send, noInit_cons,
      noInit_nil, emptyToken, bind, Except.bind, pure, Except.pure, stateLineCommentBody, hr, h5,
      isBlank]
  simp [stepNoInit, nextChar, getState, advance, checkComments, pushState, popState,
    replaceState, replaceToken, getToken, getTokenString, accumulate, send, noInit_cons,
    noInit_nil, emptyToken, bind, Except.bind, pure, Except.pure, stateLineCommentBody, hr, h5,
    h3]

theorem noInit_cComment (c : Char) (id : Nat) (ch : Char) (v : String) (r : List State)
    (toks : List Token) (pos : Int) (ut us : List String)
    (hr : noInit r = true) :
    stepNoInit (nextChar c ⟨⟨STATE_CCOMMENT, ⟨id, ch, .str v⟩⟩ :: r, toks, pos, ut, us⟩) := by
  by_cases h3 : c = '\n'
  · subst h3
    simp [stepNoInit, nextChar, getState, advance, checkComments, pushState, popState,
      replaceState, replaceToken, getToken, getTokenString, accumulate, send, noInit_cons,
      noInit_nil, emptyToken, bind, Except.bind, pure, Except.pure, stateCCommentBody, hr,
      isBlank]
  by_cases h1 : c = '*'
  · subst h1
    simp [stepNoInit, nextChar, getState, advance, checkComments, pushState, popState,
      replaceState, replaceToken, getToken, getTokenString, accumulate, send, noInit_cons,
      noInit_nil, emptyToken, bind, Except.bind, pure, Except.pure, stateCCommentBody, hr, h3,
      isBlank]
  simp [stepNoInit, nextChar, getState, advance, checkComments, pushState, popState,
    replaceState, replaceToken, getToken, getTokenString, accumulate, send, noInit_cons,
    noInit_nil, emptyToken, bind, Except.bind, pure, Except.pure, stateCCommentBody, hr, h3, h1]

theorem noInit_slash (c : Char) (id : Nat) (ch q : Char) (r : List State)
    (toks : List Token) (pos : Int) (ut us : List String)
    (hr : noInit r = true) :
    stepNoInit (nextChar c ⟨⟨STATE_SLASH, ⟨id, ch, .rune q⟩⟩ :: r, toks, pos, ut, us⟩) := by
  by_cases h3 : c = '\n'
  · subst h3
    simp [stepNoInit, nextChar, getState, advance, checkComments, pushState, popState,
      replaceState, replaceToken, getToken, getTokenString, accumulate, send, noInit_cons,
      noInit_nil, emptyToken, bind, Except.bind, pure, Except.pure, stateSlashBody, hr, isBlank]
  by_cases h1 : c = '/'
  · subst h1
    simp [stepNoInit, nextChar, getState, advance, checkComments, pushState, popState,
      replaceState, replaceToken, getToken, getTokenString, accumulate, send, noInit_cons,
      noInit_nil, emptyToken, bind, Except.bind, pure, Except.pure, stateSlashBody, hr, h3,
      isBlank]
  by_cases h2 : c = '*'
  · subst h2
    simp [stepNoInit, nextChar, getState, advance, checkComments, pushState, popState,
      replaceState, replaceToken, getToken, getTokenString, accumulate, send, noInit_cons,
      noInit_nil, emptyToken, bind, Except.bind, pure, Except.pure, stateSlashBody, hr, h3, h1,
      isBlank]
  by_cases h6 : isBlank c = true
  · simp [stepNoInit, nextChar, getState, advance, checkComments, pushState, popState,
      replaceState, replaceToken, getToken, getTokenString, accumulate, send, noInit_cons,
      noInit_nil, emptyToken, bind, Except.bind, pure, Except.pure, stateSlashBody, hr, h3, h1,
      h2, h6]
  simp [stepNoInit, nextChar, getState, advance, checkComments, pushState, popState,
    replaceState, replaceToken, getToken, getTokenString, accumulate, send, noInit_cons,
    noInit_nil, emptyToken, bind, Except.bind, pure, Except.pure, stateSlashBody, hr, h3, h1, h2,
    h6]

theorem noInit_star (c : Char) (id : Nat) (ch : Char) (v : String) (id1 : Nat) (ch1 : Char) (v1 : String) (r : List State)
    (toks : List Token) (pos : Int) (ut us : List String)
    (hr : noInit r = true) :
    stepNoInit (nextChar c ⟨⟨STATE_STAR, ⟨id, ch, .str v⟩⟩ :: ⟨STATE_CCOMMENT, ⟨id1, ch1, .str v1⟩⟩ :: r, toks, pos, ut, us⟩) := by
  by_cases h3 : c = '\n'
  · subst h3
    simp [stepNoInit, nextChar, getState, advance, checkComments, pushState, popState,
      replaceState, replaceToken, getToken, getTokenString, accumulate, send, noInit_cons,
      noInit_nil, emptyToken, bind, Except.bind, pure, Except.pure, stateStarBody, hr, isBlank]
  by_cases h1 : c = '/'
  · subst h1
    simp [stepNoInit, nextChar, getState, advance, checkComments, pushState, popState,
      replaceState, replaceToken, getToken, getTokenString, accumulate, send, noInit_cons,
      noInit_nil, emptyToken, bind, Except.bind, pure, Except.pure, stateStarBody, hr, h3,
      isBlank]
  by_cases h2 : c = '*'
  · subst h2
    simp [stepNoInit, nextChar, getState, advance, checkComments, pushState, popState,
      replaceState, replaceToken, getToken, getTokenString, accumulate, send, noInit_cons,
      noInit_nil, emptyToken, bind, Except.bind, pure, Except.pure, stateStarBody, hr, h3, h1,
      isBlank]
  simp [stepNoInit, nextChar, getState, advance, checkComments, pushState, popState,
    replaceState, replaceToken, getToken, getTokenString, accumulate, send, noInit_cons,
    noInit_nil, emptyToken, bind, Except.bind, pure, Except.pure, stateStarBody, hr, h3, h1, h2]

theorem noInit_percent (c : Char) (id : Nat) (ch : Char) (v : String) (id1 : Nat) (ch1 : Char)
    (v1 : String) (toks : List Token) (pos : Int) (ut us : List String) :
    stepNoInit (nextChar c ⟨[⟨STATE_PERCENT, ⟨id, ch, .str v⟩⟩,
      ⟨STATE_YACCRULES, ⟨id1, ch1, .str v1⟩⟩], toks, pos, ut, us⟩) := by
  by_cases h1 : c = '/'
  · subst h1
    simp [stepNoInit, nextChar, getState, advance, checkComments, pushState, popState,
      replaceState, replaceToken, getToken, getTokenString, accumulate, send, noInit_cons,
      noInit_nil, emptyToken, bind, Except.bind, pure, Except.pure, statePercentBody]
  by_cases h2 : c = '#'
  · subst h2
    simp [stepNoInit, nextChar, getState, advance, checkComments, pushState, popState,
      replaceState, replaceToken, getToken, getTokenString, accumulate, send, noInit_cons,
      noInit_nil, emptyToken, bind, Except.bind, pure, Except.pure, statePercentBody]
  by_cases h5 : c = '\r'
  · subst h5
    simp [stepNoInit, nextChar, getState, advance, checkComments, pushState, popState,
      replaceState, replaceToken, getToken, getTokenString, accumulate, send, noInit_cons,
      noInit_nil, emptyToken, bind, Except.bind, pure, Except.pure, statePercentBody]
  by_cases h3 : c = '\n'
  · subst h3
    rcases checkCommand_shape STATE_PERCENT id ch v ⟨STATE_YACCRULES, ⟨id1, ch1, .str v1⟩⟩ [] toks
      (-1) ut us with ⟨y1, h⟩ | ⟨ut1, us1, h⟩ | ⟨f0, rest, _, _, h⟩
    · simp [stepNoInit, nextChar, getState, advance, checkComments, pushState, popState,
        replaceState, replaceToken, getToken, getTokenString, accumulate, send, noInit_cons,
        noInit_nil, emptyToken, bind, Except.bind, pure, Except.pure, statePercentBody, h]
    · simp [stepNoInit, nextChar, getState, advance, checkComments, pushState, popState,
        replaceState, replaceToken, getToken, getTokenString, accumulate, send, noInit_cons,
        noInit_nil, emptyToken, bind, Except.bind, pure, Except.pure, statePercentBody, h]
    · simp [stepNoInit, nextChar, getState, advance, checkComments, pushState, popState,
        replaceState, replaceToken, getToken, getTokenString, accumulate, send, noInit_cons,
        noInit_nil, emptyToken, bind, Except.bind, pure, Except.pure, statePercentBody, h]
  simp [stepNoInit, nextChar, getState, advance, checkComments, pushState, popState,
    replaceState, replaceToken, getToken, getTokenString, accumulate, send, noInit_cons,
    noInit_nil, emptyToken, bind, Except.bind, pure, Except.pure, statePercentBody, h1, h2, h3,
    h5]

/-- No step creates a Preamble frame: from a configuration that satisfies the
invariant and has no Preamble frame, a step leads to a stack without one. -/
theorem nextChar_noInit (c : Char) (y : Yacc) (h : Inv y) (hn : noInit y.states = true) :
    stepNoInit (nextChar c y) := by
  obtain ⟨st, toks, pos, ut, us⟩ := y
  obtain ⟨hs, _⟩ := h
  simp only at hs hn
  have line : ∀ l, lineStack l = true → noInit l = true →
      stepNoInit (nextChar c ⟨l, toks, pos, ut, us⟩) := by
    intro l hl hnl
    rcases lineStack_cases l hl with ⟨tag, id, ch, v, rfl, hb, _⟩
      | ⟨id, ch, v, btag, id1, ch1, v1, rfl, hb, _⟩
    · cases tag <;> simp [isBase] at hb
      · simp [noInit_cons] at hnl
      · exact noInit_yaccRules c id ch v toks pos ut us
      · exact noInit_action c id ch v toks pos ut us
      · exact noInit_actionBlock c id ch v toks pos ut us
      · exact noInit_actionEnd c id ch v toks pos ut us
    · rcases hb with rfl | rfl
      · simp [noInit_cons] at hnl
      · exact noInit_percent c id ch v id1 ch1 v1 toks pos ut us
  match st, hs, hn with
  | s :: r, hs, hn =>
    obtain ⟨tag, id, ch, val⟩ := s
    have hnr : noInit r = true := by
      rw [noInit_cons] at hn
      exact (Bool.and_eq_true _ _ ▸ hn).2
    cases tag
    case STATE_SLASH =>
      cases val with
      | str v => simp [goodStack_cons] at hs
      | rune q => exact noInit_slash c id ch q r toks pos ut us hnr
    case STATE_LINECOMMENT =>
      simp only [goodStack_cons, Bool.and_eq_true] at hs
      obtain ⟨id, ch, v, he, _⟩ := okToken_cases _ hs.1
      cases he
      exact noInit_lineComment c id ch v r toks pos ut us hnr
    case STATE_CCOMMENT =>
      simp only [goodStack_cons, Bool.and_eq_true] at hs
      obtain ⟨id, ch, v, he, _⟩ := okToken_cases _ hs.1
      cases he
      exact noInit_cComment c id ch v r toks pos ut us hnr
    case STATE_STAR =>
      simp only [goodStack_cons, Bool.and_eq_true] at hs
      obtain ⟨id, ch, v, he, _⟩ := okToken_cases _ hs.1
      cases he
      match r, hs.2, hnr with
      | s1 :: r1, h2, hnr =>
        obtain ⟨tag1, tok1⟩ := s1
        simp only [Bool.and_eq_true, decide_eq_true_eq] at h2
        obtain ⟨⟨h3, h4⟩, _⟩ := h2
        subst h3
        obtain ⟨id1, ch1, v1, rfl, _⟩ := okToken_cases tok1 h4
        have hnr1 : noInit r1 = true := by
          rw [noInit_cons] at hnr
          exact (Bool.and_eq_true _ _ ▸ hnr).2
        exact noInit_star c id ch v id1 ch1 v1 r1 toks pos ut us hnr1
    all_goals exact line _ (by simpa [goodStack_cons] using hs) hn

/-- Consuming any input from a configuration that satisfies the invariant and
has no Preamble frame leads to configurations without Preamble frame. -/
theorem consume_noInit (z : List Char) :
    ∀ y, Inv y → noInit y.states = true → ∀ y2, consume z y = .ok y2 →
      noInit y2.states = true := by
  induction z with
  | nil =>
    intro y _ hn y2 h
    simp only [consume, Except.ok.injEq] at h
    rw [← h]
    exact hn
  | cons c rest ih =>
    intro y hi hn y2 h
    have h1 := nextChar_inv c y hi
    have h2 := nextChar_noInit c y hi hn
    simp only [consume] at h
    cases hc : nextChar c y with
    | error e => rw [hc] at h; cases h
    | ok y1 =>
      rw [hc] at h h1 h2
      exact ih y1 h1 h2 y2 h

/-- The LF that ends a `yacc` line, read in a configuration that satisfies the
invariant, leaves the single GrammarRules frame. -/
theorem nextChar_yacc_line (y : Yacc) (hinv : Inv y) (id : Nat) (ch : Char) (line : String)
    (stk : List State) (rest : List String)
    (hst : y.states = ⟨STATE_PERCENT, ⟨id, ch, .str line⟩⟩ :: stk)
    (hf : Fields line = "yacc" :: rest) :
    nextChar '\n' y = .ok ⟨[⟨STATE_YACCRULES, emptyToken⟩],
      y.tokens ++ [⟨TOKEN_INSTRUCTION, nul, .str line⟩], -1, y.userTokens, y.userStates⟩ := by
  obtain ⟨st, toks, pos, ut, us⟩ := y
  simp only at hst
  subst hst
  have hl : lineStack (⟨STATE_PERCENT, ⟨id, ch, .str line⟩⟩ :: stk) = true := by
    simpa [goodStack_cons] using hinv.1
  rcases lineStack_cases _ hl with ⟨tag, id0, ch0, v0, he, hb, _⟩
    | ⟨id0, ch0, v0, btag, id1, ch1, v1, he, _⟩
  · simp only [List.cons.injEq, State.mk.injEq] at he
    obtain ⟨⟨rfl, _⟩, _⟩ := he
    simp [isBase] at hb
  · simp only [List.cons.injEq, State.mk.injEq, true_and] at he
    obtain ⟨_, rfl⟩ := he
    simp [nextChar, getState, advance, statePercentBody, checkComments, checkCommand,
      getTokenString, getToken, hf, popState, replaceState, pushState, send, bind,
      Except.bind, pure, Except.pure]

/-- C14. Once the LF that ends a `yacc` directive line has been read in a
configuration reached from the initial one, no configuration reached by
consuming any further input has a Preamble-tagged frame anywhere in its stack. -/
theorem no_way_back_to_preamble (x : List Char) (y : Yacc) (id : Nat) (ch : Char)
    (line : String) (stk : List State) (rest : List String) (z : List Char) (y2 : Yacc)
    (hreach : consume x initial = .ok y)
    (hst : y.states = ⟨STATE_PERCENT, ⟨id, ch, .str line⟩⟩ :: stk)
    (hf : Fields line = "yacc" :: rest)
    (hz : consume ('\n' :: z) y = .ok y2) :
    ∀ s ∈ y2.states, s.current ≠ STATE_INIT := by
  have hinv := reachable_inv x y hreach
  have hstep := nextChar_yacc_line y hinv id ch line stk rest hst hf
  have hinv1 := nextChar_inv '\n' y hinv
  rw [hstep] at hinv1
  simp only [consume, hstep] at hz
  have hn := consume_noInit z _ hinv1 rfl y2 hz
  intro s hs
  simp only [noInit, List.all_eq_true, decide_eq_true_eq] at hn
  exact hn s hs

/-- Witness for C14: after `%yacc`, a `%token` directive in the rule section. -/
theorem no_way_back_to_preamble_witness :
    consume "\n%yacc".toList initial
        = .ok ⟨[⟨STATE_PERCENT, ⟨0, 'c', .str "yacc"⟩⟩, ⟨STATE_INIT, emptyToken⟩], [], 4, [],
            ["_INIT"]⟩
      ∧ Fields "yacc" = ["yacc"]
      ∧ consume ('\n' :: "%token a".toList)
          ⟨[⟨STATE_PERCENT, ⟨0, 'c', .str "yacc"⟩⟩, ⟨STATE_INIT, emptyToken⟩], [], 4, [],
            ["_INIT"]⟩
        = .ok ⟨[⟨STATE_PERCENT, ⟨0, 'a', .str "token a"⟩⟩, ⟨STATE_YACCRULES, emptyToken⟩],
            [⟨TOKEN_INSTRUCTION, nul, .str "yacc"⟩], 7, [], ["_INIT"]⟩
      ∧ ∀ s ∈ [(⟨STATE_PERCENT, ⟨0, 'a', .str "token a"⟩⟩ : State),
            ⟨STATE_YACCRULES, emptyToken⟩], s.current ≠ STATE_INIT :=
  ⟨rfl, by decide, rfl,
    no_way_back_to_preamble "\n%yacc".toList _ 0 'c' "yacc" [⟨STATE_INIT, emptyToken⟩] []
      "%token a".toList
      ⟨[⟨STATE_PERCENT, ⟨0, 'a', .str "token a"⟩⟩, ⟨STATE_YACCRULES, emptyToken⟩],
        [⟨TOKEN_INSTRUCTION, nul, .str "yacc"⟩], 7, [], ["_INIT"]⟩ rfl rfl (by decide) rfl⟩

end PigYacc
